import Mathlib

/-
Verification of the Gravitino virtual filesystem client
(src/clients/client-python/gravitino/filesystem/gvfs.py).

Strings are embedded as List Char.  Each definition mirrors the Python
source function it is named after; definitions marked "Modelled from the
spec" stand for repository code that is not under src (only its callers
are) and follow the specification's words.
-/

set_option maxHeartbeats 1000000

abbrev Str := List Char

/-- Identifier components are separated by slashes, so segment parsing uses
this character predicate. -/
def notSlash (c : Char) : Bool := c != '/'

/-- Modelled from the spec: gravitino.name_identifier.NameIdentifier is not
under src.  The spec defines an identifier as an immutable tuple
(metalake, catalog, schema, fileset) with value equality. -/
structure NameIdentifier where
  metalake : Str
  catalog : Str
  schema : Str
  fileset : Str
deriving DecidableEq, Repr

/-- The storage backends recognized by gvfs.py (class StorageType). -/
inductive StorageType
  | HDFS
  | LOCAL
  | LAVAFS
deriving DecidableEq, Repr

/-- String value of each StorageType member (StorageType.value in gvfs.py). -/
def StorageType.value : StorageType → Str
  | .HDFS => "hdfs".toList
  | .LOCAL => "file".toList
  | .LAVAFS => "lavafs".toList

/-- Operation kinds passed to the metadata service
(gravitino.api.fileset_data_operation, constructors restricted to the ones
gvfs.py uses). -/
inductive FilesetDataOperation
  | LIST_STATUS
  | GET_FILE_STATUS
  | EXISTS
  | COPY_FILE
  | RENAME
  | DELETE
  | OPEN
  | CREATE
  | APPEND
  | MKDIRS
  | CREATED_TIME
  | MODIFIED_TIME
  | CAT_FILE
  | GET_FILE
deriving DecidableEq, Repr

/-- Every raise site of gvfs.py gets one constructor, so distinct failure
messages stay distinguishable.  All of them are a single
GravitinoRuntimeException class in Python. -/
inductive GvfsError
  | invalidPath (p : Str)
  | nullPath
  | noIdentifier (p : Str)
  | crossFileset (src dst : NameIdentifier)
  | unsupportedStorage (p : Str)
  | invalidHostPath (p : Str)
  | unsupportedHostPath (p : Str)
  | prefixMismatch (p actualPre : Str)
  | createdUnsupported
  | remoteDestination
  | indexError
  | assertExpiredTime
  | assertCacheSize
  | tokenNotProvided
  | emptyToken
  | unsupportedAuthType (t : Str)
deriving DecidableEq, Repr

instance exceptDecEq {ε α : Type} [DecidableEq ε] [DecidableEq α] :
    DecidableEq (Except ε α) := fun x y =>
  match x, y with
  | .error a, .error b =>
    if h : a = b then .isTrue (by rw [h])
    else .isFalse (by intro hc; cases hc; exact h rfl)
  | .ok a, .ok b =>
    if h : a = b then .isTrue (by rw [h])
    else .isFalse (by intro hc; cases hc; exact h rfl)
  | .error _, .ok _ => .isFalse (by intro hc; cases hc)
  | .ok _, .error _ => .isFalse (by intro hc; cases hc)

/-- Decides whether an Except value is a success. -/
def except_ok {α : Type} : Except GvfsError α → Bool
  | .ok _ => true
  | .error _ => false

/-- Success value of an Except, if any. -/
def ok_value {α : Type} : Except GvfsError α → Option α
  | .ok a => some a
  | .error _ => none

/-- Models GravitinoVirtualFileSystem._pre_process_path: strip one optional
gvfs scheme marker, then require the fileset marker. -/
def pre_process_path (virtual_path : Str) : Except GvfsError Str :=
  let stripped :=
    if ("gvfs://".toList).isPrefixOf virtual_path then
      virtual_path.drop ("gvfs://".toList).length
    else virtual_path
  if ("fileset/".toList).isPrefixOf stripped then .ok stripped
  else .error (.invalidPath stripped)

/-- Fuel-indexed matcher for the tail part of the identifier pattern of
gvfs.py, the regex piece written there as a star of slash-plus-segment
followed by an optional final slash.  A segment is one or more non-slash
characters, matched greedily exactly as the regex does (greedy matching is
forced here because a shorter match would leave a non-slash character where
the pattern demands a slash or the end).  The fuel is an upper bound on the
input length, so the function is structurally recursive and kernel
reducible. -/
def match_tail_go : Nat → Str → Bool
  | _, [] => true
  | 0, _ :: _ => false
  | f + 1, d :: rest =>
    if d = '/' then
      if rest = [] then true
      else if rest.takeWhile notSlash = [] then false
      else match_tail_go f (rest.dropWhile notSlash)
    else false

/-- Matcher for the sub-path tail of the identifier regex. -/
def match_tail (s : Str) : Bool := match_tail_go s.length s

/-- Models GravitinoVirtualFileSystem._identifier_pattern applied from the
last of the three captured segments onward: non-empty third segment, then
the sub-path tail. -/
def extract_third (a b r3 : Str) : Option (Str × Str × Str) :=
  if r3.takeWhile notSlash = [] then none
  else if match_tail (r3.dropWhile notSlash) then some (a, b, r3.takeWhile notSlash)
  else none

/-- Models the identifier regex from the second captured segment onward:
non-empty segment, a literal slash, then the rest of the pattern. -/
def extract_second (a r2 : Str) : Option (Str × Str × Str) :=
  if r2.takeWhile notSlash = [] then none
  else
    match r2.dropWhile notSlash with
    | [] => none
    | d :: r3 => if d = '/' then extract_third a (r2.takeWhile notSlash) r3 else none

/-- Models the identifier regex from the first captured segment onward. -/
def extract_first (r1 : Str) : Option (Str × Str × Str) :=
  if r1.takeWhile notSlash = [] then none
  else
    match r1.dropWhile notSlash with
    | [] => none
    | d :: r2 => if d = '/' then extract_second (r1.takeWhile notSlash) r2 else none

/-- Models a full match of GravitinoVirtualFileSystem._identifier_pattern,
returning the three captured groups.  The pattern always has exactly three
capturing groups, so the groups-length check in the source is vacuous.  A
trailing-newline subtlety of the Python end anchor cannot change acceptance
for this pattern, because a final newline is always absorbable into the last
segment or the optional trailing slash position. -/
def extract_groups (path : Str) : Option (Str × Str × Str) :=
  if ("fileset/".toList).isPrefixOf path then
    extract_first (path.drop ("fileset/".toList).length)
  else none

/-- Models GravitinoVirtualFileSystem._extract_identifier.  A missing path
fails; a path the identifier pattern rejects fails; otherwise the identifier
is built from the configured metalake and the three captured groups. -/
def extract_identifier (metalake : Str) (path : Option Str) : Except GvfsError NameIdentifier :=
  match path with
  | none => .error .nullPath
  | some p =>
    match extract_groups p with
    | some (a, b, c) => .ok ⟨metalake, a, b, c⟩
    | none => .error (.noIdentifier p)

/-- Models GravitinoVirtualFileSystem._get_virtual_location. -/
def virtual_location (ident : NameIdentifier) : Str :=
  "fileset/".toList ++ (ident.catalog ++ ('/' :: (ident.schema ++ ('/' :: ident.fileset))))

/-- A well-formed path segment: non-empty and slash-free.  Used to state the
grammar of the claims declaratively. -/
def seg_ok (x : Str) : Prop := x ≠ [] ∧ '/' ∉ x

instance (x : Str) : Decidable (seg_ok x) := by
  unfold seg_ok; infer_instance

/-- Declarative sub-path tail: a sequence of slash-led non-empty segments,
optionally ending with one slash. -/
def tail_str (subs : List Str) (tr : Bool) : Str :=
  match subs with
  | [] => if tr then ['/'] else []
  | x :: rest => '/' :: (x ++ tail_str rest tr)

/-- Declarative form of a virtual path accepted by the identifier pattern:
the fileset marker, three non-empty slash-free segments, and a sub-path
tail. -/
def grammar_path (a b c : Str) (subs : List Str) (tr : Bool) : Str :=
  "fileset/".toList ++ (a ++ ('/' :: (b ++ ('/' :: (c ++ tail_str subs tr)))))

/-- Fuel-indexed model of the Python str.replace method as used by
_convert_actual_path: scan left to right, replace every non-overlapping
occurrence of old, and jump past each replaced occurrence.  An empty old
inserts new between all characters and at both ends, as in Python.  The
fuel is an upper bound on the input length. -/
def py_replace_go (old new : Str) : Nat → Str → Str
  | _, [] => if old = [] then new else []
  | 0, d :: rest => d :: rest
  | f + 1, d :: rest =>
    if old = [] then new ++ d :: py_replace_go old new f rest
    else if old.isPrefixOf (d :: rest) then
      new ++ py_replace_go old new f ((d :: rest).drop old.length)
    else d :: py_replace_go old new f rest

/-- Python s.replace(old, new), replacing every occurrence. -/
def py_replace (old new s : Str) : Str := py_replace_go old new s.length s

/-- Suffix of a URI after the first scheme separator, if any. -/
def after_scheme : Str → Option Str
  | [] => none
  | ':' :: '/' :: '/' :: rest => some rest
  | _ :: rest => after_scheme rest

/-- Models fsspec.utils.infer_storage_options (external library) as used by
_convert_actual_path: for a URI with a scheme separator the result is the
path component, which starts at the first slash after the authority; for a
plain path the result is the path itself. -/
def infer_path (s : Str) : Str :=
  match after_scheme s with
  | none => s
  | some rest => rest.dropWhile notSlash

/-- The actual-path text that _convert_actual_path removes from the front of
an actual path: the path component of the storage location for the
distributed backends, the storage location minus the literal file scheme
for the local backend. -/
def actual_pre_of (st : StorageType) (storage_location : Str) : Str :=
  match st with
  | .HDFS => infer_path storage_location
  | .LAVAFS => infer_path storage_location
  | .LOCAL => storage_location.drop ("file:".toList).length

/-- Core of _convert_actual_path once the actual-path text to remove is
known: fail unless the path starts with it, then substitute the virtual
location for it with Python replace semantics (every occurrence). -/
def convert_core (actualPre vloc path : Str) : Except GvfsError Str :=
  if actualPre.isPrefixOf path then .ok (py_replace actualPre vloc path)
  else .error (.prefixMismatch path actualPre)

/-- Models GravitinoVirtualFileSystem._convert_actual_path. -/
def convert_actual_path (path storage_location : Str) (st : StorageType)
    (ident : NameIdentifier) : Except GvfsError Str :=
  convert_core (actual_pre_of st storage_location) (virtual_location ident) path

/-- A listing entry: name, size, type and mtime fields of the dicts
gvfs.py passes around. -/
structure EntryInfo where
  name : Str
  size : Nat
  ftype : Str
  mtime : Int
deriving DecidableEq, Repr

/-- Models GravitinoVirtualFileSystem._convert_actual_info. -/
def convert_actual_info (entry : EntryInfo) (storage_location : Str)
    (st : StorageType) (ident : NameIdentifier) : Except GvfsError EntryInfo :=
  match convert_actual_path entry.name storage_location st ident with
  | .error e => .error e
  | .ok p => .ok ⟨p, entry.size, entry.ftype, entry.mtime⟩

/-- Models GravitinoVirtualFileSystem._recognize_storage_type. -/
def recognize_storage_type (path : Str) : Except GvfsError StorageType :=
  if (StorageType.HDFS.value ++ "://".toList).isPrefixOf path then .ok .HDFS
  else if (StorageType.LAVAFS.value ++ "://".toList).isPrefixOf path then .ok .LAVAFS
  else if (StorageType.LOCAL.value ++ ":/".toList).isPrefixOf path then .ok .LOCAL
  else .error (.unsupportedStorage path)

/-- Models GravitinoVirtualFileSystem._parse_storage_host_path.  For the
local backend the Python source interpolates the enum member itself, so the
key is the constant text StorageType.LOCAL followed by a colon-slash.  For
the distributed backends the key is the non-empty host part after the
scheme, matched greedily up to the first slash as the regexes there do. -/
def parse_storage_host_path (path : Str) : Except GvfsError Str :=
  if (StorageType.LOCAL.value ++ ":/".toList).isPrefixOf path then
    .ok ("StorageType.LOCAL:/".toList)
  else if (StorageType.HDFS.value ++ "://".toList).isPrefixOf path then
    let host := (path.drop ("hdfs://".toList).length).takeWhile notSlash
    if host = [] then .error (.invalidHostPath path) else .ok host
  else if (StorageType.LAVAFS.value ++ "://".toList).isPrefixOf path then
    let host := (path.drop ("lavafs://".toList).length).takeWhile notSlash
    if host = [] then .error (.invalidHostPath path) else .ok host
  else .error (.unsupportedHostPath path)

/-- Models GravitinoVirtualFileSystem._strip_storage_protocol.  The raise
branch of the source is unreachable for the three enum members. -/
def strip_storage_protocol (st : StorageType) (path : Str) : Str :=
  match st with
  | .HDFS => path
  | .LAVAFS => path
  | .LOCAL => path.drop ("file:".toList).length

/-- A backend filesystem handle, identified the way the handle cache of
_get_filesystem identifies it: one shared local-filesystem handle, and one
wrapped Hadoop handle per cache key. -/
inductive FSHandle
  | localFS
  | hadoopFS (key : Str)
deriving DecidableEq, Repr

/-- Models GravitinoVirtualFileSystem._get_filesystem up to handle
identity: recognize the storage type, parse the cache key, and produce the
handle the cache would hold for that key.  The cache layers and the one-time
Hadoop classpath bootstrap only affect timing and resource reuse, not which
handle a given actual path resolves to. -/
def get_filesystem (actual_path : Str) : Except GvfsError FSHandle :=
  match recognize_storage_type actual_path with
  | .error e => .error e
  | .ok st =>
    match parse_storage_host_path actual_path with
    | .error e => .error e
    | .ok key =>
      match st with
      | .HDFS => .ok (.hadoopFS key)
      | .LAVAFS => .ok (.hadoopFS key)
      | .LOCAL => .ok .localFS

/-- Modelled from the spec: gravitino.api.fileset_context.FilesetContext is
not under src.  The spec defines a resolved context as the fileset's
declared storage location plus an ordered list of actual paths. -/
structure FilesetContext where
  storage_location : Str
  actual_paths : List Str
deriving DecidableEq, Repr

/-- Oracle for the metadata service: given the fileset identifier, the
sub-path and the operation kind, produce the resolved context.  It stands
for fileset_catalog.as_fileset_catalog().get_fileset_context in
_get_fileset_context. -/
def Resolver : Type := NameIdentifier → Str → FilesetDataOperation → FilesetContext

/-- Externally visible steps of one facade call: a catalog load, a context
resolution against the metadata service, or a delegated backend call. -/
inductive BackendStep
  | lsCall (fs : FSHandle) (path : Str) (detail : Bool)
  | infoCall (fs : FSHandle) (path : Str)
  | existsCall (fs : FSHandle) (path : Str)
  | cpFileCall (fs : FSHandle) (src dst : Str)
  | mvCall (fs : FSHandle) (src dst : Str)
  | mvLocalCall (fs : FSHandle) (src dst : Str) (recursive : Bool) (maxdepth : Option Nat)
  | rmCall (fs : FSHandle) (path : Str) (recursive : Bool) (maxdepth : Option Nat)
  | rmFileCall (fs : FSHandle) (path : Str)
  | rmdirCall (fs : FSHandle) (path : Str)
  | openCall (fs : FSHandle) (path mode : Str)
  | mkdirCall (fs : FSHandle) (path : Str) (create_parents : Bool)
  | makedirsCall (fs : FSHandle) (path : Str) (exist_ok : Bool)
  | createdCall (fs : FSHandle) (path : Str)
  | modifiedCall (fs : FSHandle) (path : Str)
  | catFileCall (fs : FSHandle) (path : Str) (start finish : Option Nat)
  | getFileCall (fs : FSHandle) (rpath lpath : Str)
deriving DecidableEq, Repr

/-- One event in the trace of a facade call. -/
inductive Event
  | loadCatalog (metalake catalog : Str)
  | resolveCtx (ident : NameIdentifier) (sub_path : Str) (operation : FilesetDataOperation)
  | backendCall (s : BackendStep)
deriving DecidableEq, Repr

/-- Oracle for the responses of the delegated backend calls that return
data. -/
structure Backend where
  ls_entries : FSHandle → Str → List EntryInfo
  ls_paths : FSHandle → Str → List Str
  info_entry : FSHandle → Str → EntryInfo
  exists_result : FSHandle → Str → Bool
  open_result : FSHandle → Str → Str → Nat
  created_result : FSHandle → Str → Int
  modified_result : FSHandle → Str → Int
  cat_result : FSHandle → Str → Option Nat → Option Nat → Str

/-- The filesystems list of _get_fileset_context: one handle per actual
path, built sequentially, first failure raised. -/
def map_fs : List Str → Except GvfsError (List FSHandle)
  | [] => .ok []
  | p :: rest =>
    match get_filesystem p with
    | .error e => .error e
    | .ok f =>
      match map_fs rest with
      | .error e => .error e
      | .ok fs => .ok (f :: fs)

/-- Models GravitinoVirtualFileSystem._get_fileset_context: pre-process the
virtual path, extract its identifier, load the catalog, resolve the context
for the sub-path and operation, and open one backend handle per actual
path.  The returned pair mirrors FilesetContextPair. -/
def get_fileset_context (mk : Str) (resolve : Resolver) (virtual_path : Str)
    (operation : FilesetDataOperation) :
    List Event × Except GvfsError (FilesetContext × List FSHandle) :=
  match pre_process_path virtual_path with
  | .error e => ([], .error e)
  | .ok vpath =>
    match extract_identifier mk (some vpath) with
    | .error e => ([], .error e)
    | .ok ident =>
      let sub_path := vpath.drop (virtual_location ident).length
      let ctx := resolve ident sub_path operation
      let evs := [Event.loadCatalog mk ident.catalog,
                  Event.resolveCtx ident sub_path operation]
      match map_fs ctx.actual_paths with
      | .error e => (evs, .error e)
      | .ok fss => (evs, .ok (ctx, fss))

/-- Shared head of every public operation: resolve the context, take the
first actual path (an empty list is a Python IndexError), and recognize its
storage type. -/
def op_prelude (mk : Str) (resolve : Resolver) (path : Str)
    (operation : FilesetDataOperation) :
    List Event × Except GvfsError (FilesetContext × List FSHandle × Str × StorageType) :=
  let r := get_fileset_context mk resolve path operation
  (r.1,
    match r.2 with
    | .error e => .error e
    | .ok (ctx, fss) =>
      match ctx.actual_paths with
      | [] => .error .indexError
      | a :: _ =>
        match recognize_storage_type a with
        | .error e => .error e
        | .ok st => .ok (ctx, fss, a, st))

/-- Shared tail of the operations that make exactly one backend call on the
first handle with the protocol-stripped first actual path. -/
def delegate_simple {α : Type} (mk : Str) (resolve : Resolver) (path : Str)
    (operation : FilesetDataOperation)
    (mkStep : FSHandle → Str → BackendStep) (mkRes : FSHandle → Str → α) :
    List Event × Except GvfsError α :=
  let r := op_prelude mk resolve path operation
  match r.2 with
  | .error e => (r.1, .error e)
  | .ok (_, fss, actual, st) =>
    match fss with
    | [] => (r.1, .error .indexError)
    | f :: _ =>
      (r.1 ++ [.backendCall (mkStep f (strip_storage_protocol st actual))],
       .ok (mkRes f (strip_storage_protocol st actual)))

/-- Conversion of a detailed listing, entry by entry, first failure
raised. -/
def conv_entries (storage_location : Str) (st : StorageType) (ident : NameIdentifier) :
    List EntryInfo → Except GvfsError (List EntryInfo)
  | [] => .ok []
  | e :: rest =>
    match convert_actual_info e storage_location st ident with
    | .error err => .error err
    | .ok e' =>
      match conv_entries storage_location st ident rest with
      | .error err => .error err
      | .ok rest' => .ok (e' :: rest')

/-- Conversion of a plain listing, path by path, first failure raised. -/
def conv_paths (storage_location : Str) (st : StorageType) (ident : NameIdentifier) :
    List Str → Except GvfsError (List Str)
  | [] => .ok []
  | p :: rest =>
    match convert_actual_path p storage_location st ident with
    | .error err => .error err
    | .ok p' =>
      match conv_paths storage_location st ident rest with
      | .error err => .error err
      | .ok rest' => .ok (p' :: rest')

/-- Models GravitinoVirtualFileSystem.ls. -/
def ls_op (mk : Str) (resolve : Resolver) (B : Backend) (path : Str) (detail : Bool) :
    List Event × Except GvfsError (Sum (List EntryInfo) (List Str)) :=
  let r := op_prelude mk resolve path .LIST_STATUS
  match r.2 with
  | .error e => (r.1, .error e)
  | .ok (ctx, fss, actual, st) =>
    match pre_process_path path with
    | .error e => (r.1, .error e)
    | .ok pp =>
      match extract_identifier mk (some pp) with
      | .error e => (r.1, .error e)
      | .ok ident =>
        match fss with
        | [] => (r.1, .error .indexError)
        | f :: _ =>
          let sp := strip_storage_protocol st actual
          if detail then
            match conv_entries ctx.storage_location st ident (B.ls_entries f sp) with
            | .error e => (r.1 ++ [.backendCall (.lsCall f sp true)], .error e)
            | .ok out => (r.1 ++ [.backendCall (.lsCall f sp true)], .ok (.inl out))
          else
            match conv_paths ctx.storage_location st ident (B.ls_paths f sp) with
            | .error e => (r.1 ++ [.backendCall (.lsCall f sp false)], .error e)
            | .ok out => (r.1 ++ [.backendCall (.lsCall f sp false)], .ok (.inr out))

/-- Models GravitinoVirtualFileSystem.info. -/
def info_op (mk : Str) (resolve : Resolver) (B : Backend) (path : Str) :
    List Event × Except GvfsError EntryInfo :=
  let r := op_prelude mk resolve path .GET_FILE_STATUS
  match r.2 with
  | .error e => (r.1, .error e)
  | .ok (ctx, fss, actual, st) =>
    match pre_process_path path with
    | .error e => (r.1, .error e)
    | .ok pp =>
      match extract_identifier mk (some pp) with
      | .error e => (r.1, .error e)
      | .ok ident =>
        match fss with
        | [] => (r.1, .error .indexError)
        | f :: _ =>
          let sp := strip_storage_protocol st actual
          match convert_actual_info (B.info_entry f sp) ctx.storage_location st ident with
          | .error e => (r.1 ++ [.backendCall (.infoCall f sp)], .error e)
          | .ok out => (r.1 ++ [.backendCall (.infoCall f sp)], .ok out)

/-- Models GravitinoVirtualFileSystem.exists. -/
def exists_op (mk : Str) (resolve : Resolver) (B : Backend) (path : Str) :
    List Event × Except GvfsError Bool :=
  delegate_simple mk resolve path .EXISTS
    (fun f sp => .existsCall f sp) (fun f sp => B.exists_result f sp)

/-- Models GravitinoVirtualFileSystem.cp_file. -/
def cp_file_op (mk : Str) (resolve : Resolver) (path1 path2 : Str) :
    List Event × Except GvfsError Unit :=
  match pre_process_path path1 with
  | .error e => ([], .error e)
  | .ok src_path =>
    match pre_process_path path2 with
    | .error e => ([], .error e)
    | .ok dst_path =>
      match extract_identifier mk (some src_path) with
      | .error e => ([], .error e)
      | .ok src_ident =>
        match extract_identifier mk (some dst_path) with
        | .error e => ([], .error e)
        | .ok dst_ident =>
          if src_ident ≠ dst_ident then
            ([], .error (.crossFileset src_ident dst_ident))
          else
            let rs := op_prelude mk resolve src_path .COPY_FILE
            match rs.2 with
            | .error e => (rs.1, .error e)
            | .ok (_, src_fss, src_actual, st) =>
              let rd := get_fileset_context mk resolve dst_path .COPY_FILE
              match rd.2 with
              | .error e => (rs.1 ++ rd.1, .error e)
              | .ok (dst_ctx, _) =>
                match dst_ctx.actual_paths with
                | [] => (rs.1 ++ rd.1, .error .indexError)
                | dst_actual :: _ =>
                  match src_fss with
                  | [] => (rs.1 ++ rd.1, .error .indexError)
                  | f :: _ =>
                    (rs.1 ++ rd.1 ++
                      [.backendCall (.cpFileCall f
                        (strip_storage_protocol st src_actual)
                        (strip_storage_protocol st dst_actual))],
                     .ok ())

/-- Models GravitinoVirtualFileSystem.mv. -/
def mv_op (mk : Str) (resolve : Resolver) (path1 path2 : Str)
    (recursive : Bool) (maxdepth : Option Nat) :
    List Event × Except GvfsError Unit :=
  match pre_process_path path1 with
  | .error e => ([], .error e)
  | .ok src_path =>
    match pre_process_path path2 with
    | .error e => ([], .error e)
    | .ok dst_path =>
      match extract_identifier mk (some src_path) with
      | .error e => ([], .error e)
      | .ok src_ident =>
        match extract_identifier mk (some dst_path) with
        | .error e => ([], .error e)
        | .ok dst_ident =>
          if src_ident ≠ dst_ident then
            ([], .error (.crossFileset src_ident dst_ident))
          else
            let rs := op_prelude mk resolve src_path .RENAME
            match rs.2 with
            | .error e => (rs.1, .error e)
            | .ok (_, src_fss, src_actual, st) =>
              let rd := get_fileset_context mk resolve dst_path .RENAME
              match rd.2 with
              | .error e => (rs.1 ++ rd.1, .error e)
              | .ok (dst_ctx, _) =>
                match dst_ctx.actual_paths with
                | [] => (rs.1 ++ rd.1, .error .indexError)
                | dst_actual :: _ =>
                  match src_fss with
                  | [] => (rs.1 ++ rd.1, .error .indexError)
                  | f :: _ =>
                    match st with
                    | .LOCAL =>
                      (rs.1 ++ rd.1 ++
                        [.backendCall (.mvLocalCall f
                          (strip_storage_protocol st src_actual)
                          (strip_storage_protocol st dst_actual) recursive maxdepth)],
                       .ok ())
                    | _ =>
                      (rs.1 ++ rd.1 ++
                        [.backendCall (.mvCall f
                          (strip_storage_protocol st src_actual)
                          (strip_storage_protocol st dst_actual))],
                       .ok ())

/-- Models GravitinoVirtualFileSystem.rm. -/
def rm_op (mk : Str) (resolve : Resolver) (path : Str)
    (recursive : Bool) (maxdepth : Option Nat) : List Event × Except GvfsError Unit :=
  delegate_simple mk resolve path .DELETE
    (fun f sp => .rmCall f sp recursive maxdepth) (fun _ _ => ())

/-- Models GravitinoVirtualFileSystem.rm_file. -/
def rm_file_op (mk : Str) (resolve : Resolver) (path : Str) :
    List Event × Except GvfsError Unit :=
  delegate_simple mk resolve path .DELETE
    (fun f sp => .rmFileCall f sp) (fun _ _ => ())

/-- Models GravitinoVirtualFileSystem.rmdir. -/
def rmdir_op (mk : Str) (resolve : Resolver) (path : Str) :
    List Event × Except GvfsError Unit :=
  delegate_simple mk resolve path .DELETE
    (fun f sp => .rmdirCall f sp) (fun _ _ => ())

/-- The operation kind that gvfs.py open chooses from the mode string. -/
def open_operation (mode : Str) : FilesetDataOperation :=
  if ("w".toList).isPrefixOf mode then .CREATE
  else if ("a".toList).isPrefixOf mode then .APPEND
  else .OPEN

/-- Models GravitinoVirtualFileSystem.open.  The returned Nat stands for
the opaque file-like object of the backend. -/
def open_op (mk : Str) (resolve : Resolver) (B : Backend) (path mode : Str) :
    List Event × Except GvfsError Nat :=
  delegate_simple mk resolve path (open_operation mode)
    (fun f sp => .openCall f sp mode) (fun f sp => B.open_result f sp mode)

/-- Models GravitinoVirtualFileSystem.mkdir. -/
def mkdir_op (mk : Str) (resolve : Resolver) (path : Str) (create_parents : Bool) :
    List Event × Except GvfsError Unit :=
  delegate_simple mk resolve path .MKDIRS
    (fun f sp => .mkdirCall f sp create_parents) (fun _ _ => ())

/-- Models GravitinoVirtualFileSystem.makedirs. -/
def makedirs_op (mk : Str) (resolve : Resolver) (path : Str) (exist_ok : Bool) :
    List Event × Except GvfsError Unit :=
  delegate_simple mk resolve path .MKDIRS
    (fun f sp => .makedirsCall f sp exist_ok) (fun _ _ => ())

/-- Models GravitinoVirtualFileSystem.created, supported only for the local
backend. -/
def created_op (mk : Str) (resolve : Resolver) (B : Backend) (path : Str) :
    List Event × Except GvfsError Int :=
  let r := op_prelude mk resolve path .CREATED_TIME
  match r.2 with
  | .error e => (r.1, .error e)
  | .ok (_, fss, actual, st) =>
    match st with
    | .LOCAL =>
      match fss with
      | [] => (r.1, .error .indexError)
      | f :: _ =>
        (r.1 ++ [.backendCall (.createdCall f (strip_storage_protocol st actual))],
         .ok (B.created_result f (strip_storage_protocol st actual)))
    | _ => (r.1, .error .createdUnsupported)

/-- Models GravitinoVirtualFileSystem.modified. -/
def modified_op (mk : Str) (resolve : Resolver) (B : Backend) (path : Str) :
    List Event × Except GvfsError Int :=
  delegate_simple mk resolve path .MODIFIED_TIME
    (fun f sp => .modifiedCall f sp) (fun f sp => B.modified_result f sp)

/-- Models GravitinoVirtualFileSystem.cat_file. -/
def cat_file_op (mk : Str) (resolve : Resolver) (B : Backend) (path : Str)
    (start finish : Option Nat) : List Event × Except GvfsError Str :=
  delegate_simple mk resolve path .CAT_FILE
    (fun f sp => .catFileCall f sp start finish)
    (fun f sp => B.cat_result f sp start finish)

/-- Models GravitinoVirtualFileSystem.get_file: refuse a non-local
destination before anything else, then delegate like the other single-call
operations. -/
def get_file_op (mk : Str) (resolve : Resolver) (rpath lpath : Str) :
    List Event × Except GvfsError Unit :=
  if !(StorageType.LOCAL.value ++ ":".toList).isPrefixOf lpath &&
     !("/".toList).isPrefixOf lpath then
    ([], .error .remoteDestination)
  else
    delegate_simple mk resolve rpath .GET_FILE
      (fun f sp => .getFileCall f sp lpath) (fun _ _ => ())

/-- The two cache shapes the constructor can build (cachetools LRUCache and
TTLCache), carrying the configured bound and expiry. -/
inductive CacheSel
  | lruCache (maxsize : Int)
  | ttlCache (maxsize ttl : Int)
deriving DecidableEq, Repr

/-- Models the backend-handle cache configuration part of
GravitinoVirtualFileSystem.__init__: the two asserts in source order, then
the choice between a plain LRU cache and a TTL cache.  The error results
stand for failed asserts, raised before any cache object exists. -/
def init_cache (cache_size cache_expired_time : Int) : Except GvfsError CacheSel :=
  if cache_expired_time = 0 then .error .assertExpiredTime
  else if ¬ cache_size > 0 then .error .assertCacheSize
  else if cache_expired_time < 0 then .ok (.lruCache cache_size)
  else .ok (.ttlCache cache_size cache_expired_time)

/-- The authenticated client shapes the constructor can build. -/
inductive AuthSel
  | simpleAuth
  | tokenAuth (token : Str)
deriving DecidableEq, Repr

/-- The options dictionary fields the constructor reads for
authentication. -/
structure Options where
  auth_type : Option Str
  token_value : Option Str
deriving DecidableEq, Repr

/-- Modelled from the spec: GVFSConfig is not under src; the spec names the
authentication modes simple (the default) and token. -/
def DEFAULT_AUTH_TYPE : Str := "simple".toList

/-- Modelled from the spec: the token authentication mode name. -/
def TOKEN_AUTH_TYPE : Str := "token".toList

/-- Models the authentication part of GravitinoVirtualFileSystem.__init__.
The missing-token branch is the assert of the source.  The empty-token
branch is modelled from the spec: TokenAuthProvider is not under src, and
the spec requires a non-empty token value for the token mode. -/
def init_auth (options : Option Options) : Except GvfsError AuthSel :=
  let auth_type :=
    match options with
    | none => DEFAULT_AUTH_TYPE
    | some o => o.auth_type.getD DEFAULT_AUTH_TYPE
  if auth_type = DEFAULT_AUTH_TYPE then .ok .simpleAuth
  else if auth_type = TOKEN_AUTH_TYPE then
    match options with
    | none => .error .tokenNotProvided
    | some o =>
      match o.token_value with
      | none => .error .tokenNotProvided
      | some tv => if tv = [] then .error .emptyToken else .ok (.tokenAuth tv)
  else .error (.unsupportedAuthType auth_type)

/-- Errors that context resolution and handle acquisition can produce.  The
guard errors of copy, move and copy-to-local are not among them. -/
def GvfsError.resolution_err : GvfsError → Bool
  | .invalidPath _ => true
  | .nullPath => true
  | .noIdentifier _ => true
  | .unsupportedStorage _ => true
  | .invalidHostPath _ => true
  | .unsupportedHostPath _ => true
  | .indexError => true
  | _ => false

/-- The result is not a cross-fileset guard failure. -/
def no_cross {α : Type} (res : Except GvfsError α) : Prop :=
  ∀ i j, res ≠ .error (.crossFileset i j)

/-- The result is not the non-local-destination guard failure of
get_file. -/
def not_remote {α : Type} (res : Except GvfsError α) : Prop :=
  res ≠ .error .remoteDestination

/-- Two resolvers whose contexts always agree on the storage location and
the first actual path, with every actual path of both acquirable as a
backend handle. -/
def ctx_agree (r1 r2 : Resolver) : Prop :=
  ∀ i sp o,
    (r1 i sp o).storage_location = (r2 i sp o).storage_location ∧
    (r1 i sp o).actual_paths.head? = (r2 i sp o).actual_paths.head? ∧
    (∀ p ∈ (r1 i sp o).actual_paths, except_ok (get_filesystem p) = true) ∧
    (∀ p ∈ (r2 i sp o).actual_paths, except_ok (get_filesystem p) = true)

/-- A fixed backend oracle for concrete evaluations. -/
def B0 : Backend :=
  ⟨fun _ _ => [], fun _ _ => [], fun _ _ => ⟨[], 0, [], 0⟩, fun _ _ => true,
   fun _ _ _ => 0, fun _ _ => 0, fun _ _ => 0, fun _ _ _ _ => []⟩

/-- A resolver whose context holds a single local actual path. -/
def R_single : Resolver := fun _ _ _ => ⟨"file:/a".toList, [("file:/a".toList)]⟩

/-- Like R_single but with a second actual path of an unrecognized
scheme. -/
def R_extra_bad : Resolver :=
  fun _ _ _ => ⟨"file:/a".toList, [("file:/a".toList), ("s3://b".toList)]⟩

/-- Like R_single but with a second recognizable local actual path. -/
def R_extra_ok : Resolver :=
  fun _ _ _ => ⟨"file:/a".toList, [("file:/a".toList), ("file:/b".toList)]⟩

-- ===== basic list lemmas =====

theorem tw_append_dw (p : Char → Bool) (l : Str) :
    l.takeWhile p ++ l.dropWhile p = l := by
  induction l with
  | nil => rfl
  | cons a t ih =>
    by_cases h : p a
    · simp [List.takeWhile, List.dropWhile, h, ih]
    · simp [List.takeWhile, List.dropWhile, h]

theorem mem_tw (p : Char → Bool) (l : Str) : ∀ x ∈ l.takeWhile p, p x = true := by
  induction l with
  | nil => intro x hx; simp [List.takeWhile] at hx
  | cons a t ih =>
    intro x hx
    by_cases h : p a
    · simp [List.takeWhile, h] at hx
      rcases hx with hx | hx
      · rw [hx]; exact h
      · exact ih x hx
    · simp [List.takeWhile, h] at hx

theorem dw_shape (p : Char → Bool) (l : Str) :
    l.dropWhile p = [] ∨ ∃ d t, l.dropWhile p = d :: t ∧ p d = false := by
  induction l with
  | nil => left; rfl
  | cons a t ih =>
    by_cases h : p a
    · simp only [List.dropWhile, h]; exact ih
    · right; exact ⟨a, t, by simp [List.dropWhile, h], by simp [h]⟩

theorem tw_dw_of_shape (p : Char → Bool) (x rest : Str)
    (hx : ∀ c ∈ x, p c = true)
    (hr : rest = [] ∨ ∃ d t, rest = d :: t ∧ p d = false) :
    (x ++ rest).takeWhile p = x ∧ (x ++ rest).dropWhile p = rest := by
  induction x with
  | nil =>
    simp only [List.nil_append]
    rcases hr with hr | ⟨d, t, hdt, hd⟩
    · subst hr; exact ⟨rfl, rfl⟩
    · subst hdt; simp [List.takeWhile, List.dropWhile, hd]
  | cons a t ih =>
    have ha : p a = true := hx a (by simp)
    have ht : ∀ c ∈ t, p c = true := fun c hc => hx c (by simp [hc])
    have := ih ht
    simp [List.takeWhile, List.dropWhile, ha, this.1, this.2]

theorem dw_len_le (p : Char → Bool) (l : Str) : (l.dropWhile p).length ≤ l.length := by
  induction l with
  | nil => simp [List.dropWhile]
  | cons a t ih =>
    by_cases h : p a
    · simp only [List.dropWhile, h]
      exact Nat.le_trans ih (by simp)
    · simp [List.dropWhile, h]

theorem ipo_append (l t : Str) : l.isPrefixOf (l ++ t) = true := by
  induction l with
  | nil => simp [List.isPrefixOf]
  | cons a s ih => simp [List.isPrefixOf, ih]

theorem append_of_ipo (l : Str) : ∀ p : Str, l.isPrefixOf p = true → p = l ++ p.drop l.length := by
  induction l with
  | nil => intro p _; simp
  | cons a s ih =>
    intro p h
    cases p with
    | nil => simp [List.isPrefixOf] at h
    | cons b q =>
      simp only [List.isPrefixOf, Bool.and_eq_true, beq_iff_eq] at h
      have := ih q h.2
      simp only [List.length_cons, List.drop_succ_cons, List.cons_append]
      rw [h.1, ← this]

theorem drop_len_append (l t : Str) : (l ++ t).drop l.length = t := by
  induction l with
  | nil => simp
  | cons a s ih => simp only [List.length_cons, List.cons_append, List.drop_succ_cons]; exact ih

-- ===== matcher correctness =====

theorem tail_str_shape (subs : List Str) (tr : Bool) :
    tail_str subs tr = [] ∨ ∃ t, tail_str subs tr = '/' :: t := by
  cases subs with
  | nil =>
    cases tr
    · left; rfl
    · right; exact ⟨[], rfl⟩
  | cons x rest => right; exact ⟨x ++ tail_str rest tr, rfl⟩

theorem notSlash_iff (c : Char) : notSlash c = true ↔ c ≠ '/' := by
  simp [notSlash]

theorem tail_str_rest_shape (subs : List Str) (tr : Bool) :
    tail_str subs tr = [] ∨ ∃ d t, tail_str subs tr = d :: t ∧ notSlash d = false := by
  rcases tail_str_shape subs tr with h | ⟨t, h⟩
  · left; exact h
  · right; exact ⟨'/', t, h, by simp [notSlash]⟩

theorem seg_all_notSlash {x : Str} (h : seg_ok x) : ∀ c ∈ x, notSlash c = true := by
  intro c hc
  rw [notSlash_iff]
  intro hcs
  exact h.2 (hcs ▸ hc)

theorem match_tail_go_complete :
    ∀ (subs : List Str) (tr : Bool) (f : Nat),
      (tail_str subs tr).length ≤ f → (∀ x ∈ subs, seg_ok x) →
      match_tail_go f (tail_str subs tr) = true := by
  intro subs
  induction subs with
  | nil =>
    intro tr f hf _
    cases tr
    · simp [tail_str, match_tail_go]
    · simp only [tail_str]
      cases f with
      | zero => simp [tail_str] at hf
      | succ g => simp [match_tail_go]
  | cons x rest ih =>
    intro tr f hf hseg
    have hx : seg_ok x := hseg x (by simp)
    have hrest : ∀ y ∈ rest, seg_ok y := fun y hy => hseg y (by simp [hy])
    simp only [tail_str] at hf ⊢
    cases f with
    | zero => simp at hf
    | succ g =>
      have hshape := tail_str_rest_shape rest tr
      have htw := tw_dw_of_shape notSlash x (tail_str rest tr) (seg_all_notSlash hx) hshape
      have hne : x ++ tail_str rest tr ≠ [] := by
        cases x with
        | nil => exact absurd rfl hx.1
        | cons a t => simp
      simp only [match_tail_go, if_pos rfl, if_neg hne, htw.1, htw.2, if_neg hx.1]
      apply ih tr g _ hrest
      have : (x ++ tail_str rest tr).length ≤ g := by
        simp only [List.length_cons] at hf
        omega
      calc (tail_str rest tr).length ≤ (x ++ tail_str rest tr).length := by
            simp
        _ ≤ g := this

theorem match_tail_go_sound :
    ∀ (f : Nat) (s : Str), s.length ≤ f → match_tail_go f s = true →
      ∃ subs tr, (∀ x ∈ subs, seg_ok x) ∧ s = tail_str subs tr := by
  intro f
  induction f with
  | zero =>
    intro s hs _
    have : s = [] := by
      cases s with
      | nil => rfl
      | cons a t => simp at hs
    exact ⟨[], false, by simp, by simp [this, tail_str]⟩
  | succ g ih =>
    intro s hs hm
    cases s with
    | nil => exact ⟨[], false, by simp, by simp [tail_str]⟩
    | cons d rest =>
      simp only [match_tail_go] at hm
      by_cases hd : d = '/'
      · rw [if_pos hd] at hm
        by_cases hre : rest = []
        · refine ⟨[], true, by simp, ?_⟩
          simp [tail_str, hd, hre]
        · rw [if_neg hre] at hm
          by_cases hseg : rest.takeWhile notSlash = []
          · simp [hseg] at hm
          · rw [if_neg hseg] at hm
            have hlen : (rest.dropWhile notSlash).length ≤ g := by
              have := dw_len_le notSlash rest
              simp only [List.length_cons] at hs
              omega
            obtain ⟨subs, tr, hvalid, heq⟩ := ih (rest.dropWhile notSlash) hlen hm
            refine ⟨rest.takeWhile notSlash :: subs, tr, ?_, ?_⟩
            · intro x hx
              rcases List.mem_cons.mp hx with hx | hx
              · subst hx
                refine ⟨hseg, ?_⟩
                intro hmem
                have := mem_tw notSlash rest _ hmem
                simp [notSlash] at this
              · exact hvalid x hx
            · simp only [tail_str, hd]
              rw [← heq, tw_append_dw]
      · rw [if_neg hd] at hm
        exact absurd hm (by simp)

theorem match_tail_complete (subs : List Str) (tr : Bool) (h : ∀ x ∈ subs, seg_ok x) :
    match_tail (tail_str subs tr) = true :=
  match_tail_go_complete subs tr _ (Nat.le_refl _) h

theorem match_tail_sound (s : Str) (h : match_tail s = true) :
    ∃ subs tr, (∀ x ∈ subs, seg_ok x) ∧ s = tail_str subs tr :=
  match_tail_go_sound s.length s (Nat.le_refl _) h

theorem extract_third_complete (a b c : Str) (subs : List Str) (tr : Bool)
    (hc : seg_ok c) (hsubs : ∀ x ∈ subs, seg_ok x) :
    extract_third a b (c ++ tail_str subs tr) = some (a, b, c) := by
  have htw := tw_dw_of_shape notSlash c (tail_str subs tr)
    (seg_all_notSlash hc) (tail_str_rest_shape subs tr)
  simp [extract_third, htw.1, htw.2, hc.1, match_tail_complete subs tr hsubs]

theorem extract_third_sound (a b r3 a' b' c : Str)
    (h : extract_third a b r3 = some (a', b', c)) :
    a' = a ∧ b' = b ∧ seg_ok c ∧
      ∃ subs tr, (∀ x ∈ subs, seg_ok x) ∧ r3 = c ++ tail_str subs tr := by
  simp only [extract_third] at h
  by_cases h1 : r3.takeWhile notSlash = []
  · simp [h1] at h
  · rw [if_neg h1] at h
    by_cases h2 : match_tail (r3.dropWhile notSlash)
    · rw [if_pos h2] at h
      have hinj : a = a' ∧ b = b' ∧ r3.takeWhile notSlash = c := by
        have := Option.some.inj h
        exact ⟨congrArg Prod.fst this, congrArg Prod.fst (congrArg Prod.snd this),
          congrArg Prod.snd (congrArg Prod.snd this)⟩
      obtain ⟨ha, hb, hc⟩ := hinj
      obtain ⟨subs, tr, hvalid, heq⟩ := match_tail_sound _ h2
      refine ⟨ha.symm, hb.symm, ?_, subs, tr, hvalid, ?_⟩
      · refine ⟨hc ▸ h1, ?_⟩
        intro hmem
        have := mem_tw notSlash r3 '/' (hc ▸ hmem)
        simp [notSlash] at this
      · rw [← hc, ← heq, tw_append_dw]
    · simp [h2] at h

theorem extract_second_complete (a b c : Str) (subs : List Str) (tr : Bool)
    (hb : seg_ok b) (hc : seg_ok c) (hsubs : ∀ x ∈ subs, seg_ok x) :
    extract_second a (b ++ ('/' :: (c ++ tail_str subs tr))) = some (a, b, c) := by
  have hshape : ('/' :: (c ++ tail_str subs tr)) = [] ∨
      ∃ d t, ('/' :: (c ++ tail_str subs tr)) = d :: t ∧ notSlash d = false :=
    Or.inr ⟨'/', _, rfl, by simp [notSlash]⟩
  have htw := tw_dw_of_shape notSlash b ('/' :: (c ++ tail_str subs tr))
    (seg_all_notSlash hb) hshape
  simp [extract_second, htw.1, htw.2, hb.1, extract_third_complete a b c subs tr hc hsubs]

theorem extract_second_sound (a r2 a' b c : Str)
    (h : extract_second a r2 = some (a', b, c)) :
    a' = a ∧ seg_ok b ∧ seg_ok c ∧
      ∃ subs tr, (∀ x ∈ subs, seg_ok x) ∧
        r2 = b ++ ('/' :: (c ++ tail_str subs tr)) := by
  simp only [extract_second] at h
  by_cases h1 : r2.takeWhile notSlash = []
  · simp [h1] at h
  · rw [if_neg h1] at h
    cases hdw : r2.dropWhile notSlash with
    | nil => rw [hdw] at h; exact absurd h (by simp)
    | cons d r3 =>
      rw [hdw] at h
      dsimp only at h
      by_cases hd : d = '/'
      · subst hd
        rw [if_pos rfl] at h
        obtain ⟨ha, hb2, hc, subs, tr, hvalid, heq⟩ := extract_third_sound _ _ _ _ _ _ h
        refine ⟨ha, ?_, hc, subs, tr, hvalid, ?_⟩
        · rw [hb2]
          refine ⟨h1, ?_⟩
          intro hmem
          have := mem_tw notSlash r2 '/' hmem
          simp [notSlash] at this
        · have hsplit : r2 = r2.takeWhile notSlash ++ r2.dropWhile notSlash :=
            (tw_append_dw notSlash r2).symm
          rw [hdw, heq, ← hb2] at hsplit
          exact hsplit
      · simp only [if_neg hd] at h
        exact absurd h (by simp)

theorem extract_first_sound (r1 a b c : Str)
    (h : extract_first r1 = some (a, b, c)) :
    seg_ok a ∧ seg_ok b ∧ seg_ok c ∧
      ∃ subs tr, (∀ x ∈ subs, seg_ok x) ∧
        r1 = a ++ ('/' :: (b ++ ('/' :: (c ++ tail_str subs tr)))) := by
  simp only [extract_first] at h
  by_cases h1 : r1.takeWhile notSlash = []
  · simp [h1] at h
  · rw [if_neg h1] at h
    cases hdw : r1.dropWhile notSlash with
    | nil => rw [hdw] at h; exact absurd h (by simp)
    | cons d r2 =>
      rw [hdw] at h
      dsimp only at h
      by_cases hd : d = '/'
      · subst hd
        rw [if_pos rfl] at h
        obtain ⟨ha, hb, hc, subs, tr, hvalid, heq⟩ := extract_second_sound _ _ _ _ _ h
        refine ⟨?_, hb, hc, subs, tr, hvalid, ?_⟩
        · rw [ha]
          refine ⟨h1, ?_⟩
          intro hmem
          have := mem_tw notSlash r1 '/' hmem
          simp [notSlash] at this
        · have hsplit : r1 = r1.takeWhile notSlash ++ r1.dropWhile notSlash :=
            (tw_append_dw notSlash r1).symm
          rw [hdw, heq, ← ha] at hsplit
          exact hsplit
      · simp only [if_neg hd] at h
        exact absurd h (by simp)

theorem extract_first_complete (a b c : Str) (subs : List Str) (tr : Bool)
    (ha : seg_ok a) (hb : seg_ok b) (hc : seg_ok c) (hsubs : ∀ x ∈ subs, seg_ok x) :
    extract_first (a ++ ('/' :: (b ++ ('/' :: (c ++ tail_str subs tr))))) = some (a, b, c) := by
  have hshape : ('/' :: (b ++ ('/' :: (c ++ tail_str subs tr)))) = [] ∨
      ∃ d t, ('/' :: (b ++ ('/' :: (c ++ tail_str subs tr)))) = d :: t ∧ notSlash d = false :=
    Or.inr ⟨'/', _, rfl, by simp [notSlash]⟩
  have htw := tw_dw_of_shape notSlash a ('/' :: (b ++ ('/' :: (c ++ tail_str subs tr))))
    (seg_all_notSlash ha) hshape
  simp [extract_first, htw.1, htw.2, ha.1, extract_second_complete a b c subs tr hb hc hsubs]

theorem extract_groups_complete (a b c : Str) (subs : List Str) (tr : Bool)
    (ha : seg_ok a) (hb : seg_ok b) (hc : seg_ok c) (hsubs : ∀ x ∈ subs, seg_ok x) :
    extract_groups (grammar_path a b c subs tr) = some (a, b, c) := by
  simp only [extract_groups, grammar_path, ipo_append, if_pos, drop_len_append]
  exact extract_first_complete a b c subs tr ha hb hc hsubs

theorem extract_groups_sound (p a b c : Str) (h : extract_groups p = some (a, b, c)) :
    seg_ok a ∧ seg_ok b ∧ seg_ok c ∧
      ∃ subs tr, (∀ x ∈ subs, seg_ok x) ∧ p = grammar_path a b c subs tr := by
  simp only [extract_groups] at h
  by_cases hp : ("fileset/".toList).isPrefixOf p
  · rw [if_pos hp] at h
    obtain ⟨ha, hb, hc, subs, tr, hvalid, heq⟩ := extract_first_sound _ _ _ _ h
    refine ⟨ha, hb, hc, subs, tr, hvalid, ?_⟩
    have hpe := append_of_ipo ("fileset/".toList) p hp
    rw [grammar_path, ← heq, ← hpe]
  · rw [if_neg hp] at h
    exact absurd h (by simp)

-- ===== replace lemmas =====

theorem py_replace_go_nil (old new : Str) (f : Nat) :
    py_replace_go old new f [] = if old = [] then new else [] := by
  cases f <;> rfl

theorem py_replace_go_fuel (old new : Str) :
    ∀ f s, s.length ≤ f → py_replace_go old new f s = py_replace old new s := by
  intro f
  induction f using Nat.strong_induction_on with
  | _ f ih =>
    intro s hs
    cases s with
    | nil => rw [py_replace_go_nil, py_replace, py_replace_go_nil]
    | cons d rest =>
      cases f with
      | zero => simp at hs
      | succ g =>
        have hrest : rest.length ≤ g := by
          simp only [List.length_cons] at hs; omega
        rw [py_replace]
        simp only [List.length_cons, py_replace_go]
        by_cases ho : old = []
        · rw [if_pos ho, if_pos ho]
          rw [ih g (Nat.lt_succ_self g) rest hrest,
              ih rest.length (by omega) rest (Nat.le_refl _)]
        · rw [if_neg ho, if_neg ho]
          by_cases hp : old.isPrefixOf (d :: rest)
          · rw [if_pos hp, if_pos hp]
            have hol : 0 < old.length := by
              cases old with
              | nil => exact absurd rfl ho
              | cons x xs => simp
            have hdlen : ((d :: rest).drop old.length).length ≤ rest.length := by
              simp only [List.length_drop, List.length_cons]
              omega
            rw [ih g (Nat.lt_succ_self g) _ (Nat.le_trans hdlen hrest),
                ih rest.length (by omega) _ hdlen]
          · rw [if_neg hp, if_neg hp]
            rw [ih g (Nat.lt_succ_self g) rest hrest,
                ih rest.length (by omega) rest (Nat.le_refl _)]

theorem py_replace_append (old new s : Str) (h : old ≠ []) :
    py_replace old new (old ++ s) = new ++ py_replace old new s := by
  cases old with
  | nil => exact absurd rfl h
  | cons o os =>
    have hpre : (o :: os : Str).isPrefixOf (o :: (os ++ s)) = true := by
      rw [← List.cons_append]; exact ipo_append _ _
    have hdrop : ((o :: (os ++ s)).drop (o :: os : Str).length) = s := by
      simp only [List.length_cons, List.drop_succ_cons]
      exact drop_len_append os s
    rw [py_replace]
    simp only [List.cons_append, List.length_cons, List.length_append]
    simp only [py_replace_go, if_neg (by simp : ¬(o :: os : Str) = []), hpre, if_pos, hdrop]
    rw [py_replace_go_fuel (o :: os) new (os.length + s.length) s (by omega)]

theorem infix_of_ipo (old s : Str) (h : old.isPrefixOf s = true) : old <:+: s :=
  ⟨[], s.drop old.length, by rw [List.nil_append]; exact (append_of_ipo old s h).symm⟩

theorem infix_cons_lift (old rest : Str) (d : Char) (h : old <:+: rest) :
    old <:+: d :: rest := by
  obtain ⟨u, v, huv⟩ := h
  exact ⟨d :: u, v, by rw [← huv]; simp⟩

theorem py_replace_go_no_occ (old new : Str) :
    ∀ f s, s.length ≤ f → ¬ old <:+: s → py_replace_go old new f s = s := by
  intro f
  induction f with
  | zero =>
    intro s hs hocc
    cases s with
    | nil =>
      rw [py_replace_go_nil, if_neg]
      intro ho
      exact hocc (ho ▸ ⟨[], [], by simp⟩)
    | cons d rest => simp at hs
  | succ g ih =>
    intro s hs hocc
    cases s with
    | nil =>
      rw [py_replace_go_nil, if_neg]
      intro ho
      exact hocc (ho ▸ ⟨[], [], by simp⟩)
    | cons d rest =>
      have ho : old ≠ [] := by
        intro ho
        exact hocc (ho ▸ ⟨[], d :: rest, by simp⟩)
      have hp : ¬ old.isPrefixOf (d :: rest) = true := by
        intro hp
        exact hocc (infix_of_ipo old _ hp)
      simp only [py_replace_go, if_neg ho, if_neg hp]
      rw [ih rest (by simp only [List.length_cons] at hs; omega)
        (fun hi => hocc (infix_cons_lift old rest d hi))]

theorem py_replace_no_occ (old new s : Str) (h : ¬ old <:+: s) :
    py_replace old new s = s :=
  py_replace_go_no_occ old new s.length s (Nat.le_refl _) h

-- ===== error classification =====

theorem pre_process_error_shape (p : Str) (e : GvfsError)
    (h : pre_process_path p = .error e) : e.resolution_err = true := by
  simp only [pre_process_path] at h
  split at h <;> split at h
  all_goals
    first
      | exact Except.noConfusion h
      | (injection h with h2; subst h2; rfl)

theorem extract_error_shape (mk : Str) (p : Option Str) (e : GvfsError)
    (h : extract_identifier mk p = .error e) : e.resolution_err = true := by
  unfold extract_identifier at h
  cases p with
  | none =>
    dsimp only at h
    injection h with h2
    subst h2
    rfl
  | some q =>
    dsimp only at h
    cases hg : extract_groups q with
    | none =>
      rw [hg] at h
      dsimp only at h
      injection h with h2
      subst h2
      rfl
    | some t =>
      obtain ⟨a, bc⟩ := t
      obtain ⟨b, c⟩ := bc
      rw [hg] at h
      dsimp only at h
      exact absurd h (by simp)

theorem recognize_error_shape (p : Str) (e : GvfsError)
    (h : recognize_storage_type p = .error e) : e.resolution_err = true := by
  unfold recognize_storage_type at h
  split at h
  · exact absurd h (by simp)
  · split at h
    · exact absurd h (by simp)
    · split at h
      · exact absurd h (by simp)
      · injection h with h2
        subst h2
        rfl

theorem parse_host_error_shape (p : Str) (e : GvfsError)
    (h : parse_storage_host_path p = .error e) : e.resolution_err = true := by
  simp only [parse_storage_host_path] at h
  split at h
  · exact absurd h (by simp)
  · split at h
    · split at h
      · injection h with h2; subst h2; rfl
      · exact absurd h (by simp)
    · split at h
      · split at h
        · injection h with h2; subst h2; rfl
        · exact absurd h (by simp)
      · injection h with h2; subst h2; rfl

theorem get_filesystem_error_shape (p : Str) (e : GvfsError)
    (h : get_filesystem p = .error e) : e.resolution_err = true := by
  unfold get_filesystem at h
  cases hr : recognize_storage_type p with
  | error e1 =>
    rw [hr] at h
    dsimp only at h
    injection h with h2
    subst h2
    exact recognize_error_shape p _ hr
  | ok st =>
    rw [hr] at h
    dsimp only at h
    cases hp : parse_storage_host_path p with
    | error e2 =>
      rw [hp] at h
      dsimp only at h
      injection h with h2
      subst h2
      exact parse_host_error_shape p _ hp
    | ok key =>
      rw [hp] at h
      dsimp only at h
      cases st <;> exact absurd h (by simp)

theorem map_fs_error_shape (l : List Str) (e : GvfsError) (h : map_fs l = .error e) :
    e.resolution_err = true := by
  induction l with
  | nil => exact absurd h (by simp [map_fs])
  | cons p rest ih =>
    unfold map_fs at h
    cases hf : get_filesystem p with
    | error e1 =>
      rw [hf] at h
      dsimp only at h
      injection h with h2
      subst h2
      exact get_filesystem_error_shape p _ hf
    | ok f =>
      rw [hf] at h
      dsimp only at h
      cases hm : map_fs rest with
      | error e2 =>
        rw [hm] at h
        dsimp only at h
        injection h with h2
        subst h2
        exact ih hm
      | ok out =>
        rw [hm] at h
        dsimp only at h
        exact absurd h (by simp)

theorem gfc_error_shape (mk : Str) (r : Resolver) (path : Str) (o : FilesetDataOperation)
    (e : GvfsError) (h : (get_fileset_context mk r path o).2 = .error e) :
    e.resolution_err = true := by
  unfold get_fileset_context at h
  cases hpp : pre_process_path path with
  | error e1 =>
    rw [hpp] at h
    dsimp only at h
    injection h with h2
    subst h2
    exact pre_process_error_shape path _ hpp
  | ok vp =>
    rw [hpp] at h
    dsimp only at h
    cases hex : extract_identifier mk (some vp) with
    | error e1 =>
      rw [hex] at h
      dsimp only at h
      injection h with h2
      subst h2
      exact extract_error_shape mk _ _ hex
    | ok ident =>
      rw [hex] at h
      dsimp only at h
      cases hm : map_fs ((r ident (vp.drop (virtual_location ident).length) o).actual_paths) with
      | error e1 =>
        rw [hm] at h
        dsimp only at h
        injection h with h2
        subst h2
        exact map_fs_error_shape _ _ hm
      | ok out =>
        rw [hm] at h
        dsimp only at h
        exact absurd h (by simp)

theorem op_prelude_error_shape (mk : Str) (r : Resolver) (path : Str)
    (o : FilesetDataOperation) (e : GvfsError)
    (h : (op_prelude mk r path o).2 = .error e) : e.resolution_err = true := by
  unfold op_prelude at h
  dsimp only at h
  cases hg : (get_fileset_context mk r path o).2 with
  | error e1 =>
    rw [hg] at h
    dsimp only at h
    injection h with h2
    subst h2
    exact gfc_error_shape mk r path o _ hg
  | ok pr =>
    obtain ⟨ctx, fss⟩ := pr
    rw [hg] at h
    dsimp only at h
    cases hap : ctx.actual_paths with
    | nil =>
      rw [hap] at h
      dsimp only at h
      injection h with h2
      subst h2
      rfl
    | cons a t =>
      rw [hap] at h
      dsimp only at h
      cases hr : recognize_storage_type a with
      | error e1 =>
        rw [hr] at h
        dsimp only at h
        injection h with h2
        subst h2
        exact recognize_error_shape a _ hr
      | ok st =>
        rw [hr] at h
        dsimp only at h
        exact absurd h (by simp)

theorem resolution_err_not_cross (e : GvfsError) (h : e.resolution_err = true) :
    ∀ i j, e ≠ .crossFileset i j := by
  intro i j he
  subst he
  simp [GvfsError.resolution_err] at h

theorem resolution_err_not_remote (e : GvfsError) (h : e.resolution_err = true) :
    e ≠ .remoteDestination := by
  intro he
  subst he
  simp [GvfsError.resolution_err] at h

-- ===== context agreement =====

theorem map_fs_ok (l : List Str) (h : ∀ p ∈ l, except_ok (get_filesystem p) = true) :
    ∃ out, map_fs l = .ok out ∧
      out.head? = l.head?.bind (fun a => ok_value (get_filesystem a)) := by
  induction l with
  | nil => exact ⟨[], rfl, rfl⟩
  | cons p rest ih =>
    have hp := h p (by simp)
    cases hf : get_filesystem p with
    | error e => rw [hf] at hp; simp [except_ok] at hp
    | ok f =>
      obtain ⟨out, hout, _⟩ := ih (fun q hq => h q (by simp [hq]))
      refine ⟨f :: out, ?_, ?_⟩
      · unfold map_fs
        rw [hf, hout]
      · simp [hf, ok_value]

theorem gfc_agree (mk : Str) (r1 r2 : Resolver) (path : Str) (o : FilesetDataOperation)
    (h : ctx_agree r1 r2) :
    (get_fileset_context mk r1 path o).1 = (get_fileset_context mk r2 path o).1 ∧
    ((∃ e, (get_fileset_context mk r1 path o).2 = .error e ∧
           (get_fileset_context mk r2 path o).2 = .error e) ∨
     (∃ c1 f1 c2 f2,
        (get_fileset_context mk r1 path o).2 = .ok (c1, f1) ∧
        (get_fileset_context mk r2 path o).2 = .ok (c2, f2) ∧
        c1.storage_location = c2.storage_location ∧
        c1.actual_paths.head? = c2.actual_paths.head? ∧
        f1.head? = f2.head?)) := by
  unfold get_fileset_context
  cases hpp : pre_process_path path with
  | error e => exact ⟨rfl, Or.inl ⟨e, rfl, rfl⟩⟩
  | ok vp =>
    dsimp only
    cases hex : extract_identifier mk (some vp) with
    | error e => exact ⟨rfl, Or.inl ⟨e, rfl, rfl⟩⟩
    | ok ident =>
      dsimp only
      obtain ⟨hloc, hhead, hv1, hv2⟩ := h ident (vp.drop (virtual_location ident).length) o
      obtain ⟨out1, hout1, hh1⟩ := map_fs_ok _ hv1
      obtain ⟨out2, hout2, hh2⟩ := map_fs_ok _ hv2
      rw [hout1, hout2]
      refine ⟨rfl, Or.inr ⟨_, out1, _, out2, rfl, rfl, hloc, hhead, ?_⟩⟩
      rw [hh1, hh2, hhead]

theorem op_prelude_agree (mk : Str) (r1 r2 : Resolver) (path : Str)
    (o : FilesetDataOperation) (h : ctx_agree r1 r2) :
    (op_prelude mk r1 path o).1 = (op_prelude mk r2 path o).1 ∧
    ((∃ e, (op_prelude mk r1 path o).2 = .error e ∧
           (op_prelude mk r2 path o).2 = .error e) ∨
     (∃ c1 f1 c2 f2 a st,
        (op_prelude mk r1 path o).2 = .ok (c1, f1, a, st) ∧
        (op_prelude mk r2 path o).2 = .ok (c2, f2, a, st) ∧
        c1.storage_location = c2.storage_location ∧
        f1.head? = f2.head?)) := by
  obtain ⟨hev, hres⟩ := gfc_agree mk r1 r2 path o h
  unfold op_prelude
  dsimp only
  rcases hres with ⟨e, h1, h2⟩ | ⟨c1, f1, c2, f2, h1, h2, hloc, hhead, hfhead⟩
  · rw [h1, h2]
    exact ⟨hev, Or.inl ⟨e, rfl, rfl⟩⟩
  · rw [h1, h2]
    dsimp only
    cases hap1 : c1.actual_paths with
    | nil =>
      have hap2 : c2.actual_paths = [] := by
        cases hc2 : c2.actual_paths with
        | nil => rfl
        | cons x t => rw [hap1, hc2] at hhead; simp at hhead
      rw [hap2]
      exact ⟨hev, Or.inl ⟨.indexError, rfl, rfl⟩⟩
    | cons a t1 =>
      have hex2 : ∃ t2, c2.actual_paths = a :: t2 := by
        cases hc2 : c2.actual_paths with
        | nil => rw [hap1, hc2] at hhead; simp at hhead
        | cons x t2 =>
          rw [hap1, hc2] at hhead
          simp only [List.head?_cons, Option.some.injEq] at hhead
          exact ⟨t2, by rw [hhead]⟩
      obtain ⟨t2, hap2⟩ := hex2
      rw [hap2]
      dsimp only
      cases hr : recognize_storage_type a with
      | error e => exact ⟨hev, Or.inl ⟨e, rfl, rfl⟩⟩
      | ok st => exact ⟨hev, Or.inr ⟨c1, f1, c2, f2, a, st, rfl, rfl, hloc, hfhead⟩⟩

theorem delegate_simple_agree {α : Type} (mk : Str) (r1 r2 : Resolver) (path : Str)
    (o : FilesetDataOperation) (mkStep : FSHandle → Str → BackendStep)
    (mkRes : FSHandle → Str → α) (h : ctx_agree r1 r2) :
    delegate_simple mk r1 path o mkStep mkRes = delegate_simple mk r2 path o mkStep mkRes := by
  obtain ⟨hev, hres⟩ := op_prelude_agree mk r1 r2 path o h
  unfold delegate_simple
  dsimp only
  rcases hres with ⟨e, h1, h2⟩ | ⟨c1, f1, c2, f2, a, st, h1, h2, hloc, hfh⟩
  · rw [h1, h2, hev]
  · rw [h1, h2]
    dsimp only
    cases hf1 : f1 with
    | nil =>
      have hf2 : f2 = [] := by
        cases hc : f2 with
        | nil => rfl
        | cons x t => rw [hf1, hc] at hfh; simp at hfh
      rw [hf2, hev]
    | cons f t1 =>
      have hex2 : ∃ t2, f2 = f :: t2 := by
        cases hc : f2 with
        | nil => rw [hf1, hc] at hfh; simp at hfh
        | cons x t2 =>
          rw [hf1, hc] at hfh
          simp only [List.head?_cons, Option.some.injEq] at hfh
          exact ⟨t2, by rw [hfh]⟩
      obtain ⟨t2, hf2⟩ := hex2
      rw [hf2, hev]

theorem head_eq_nil {α : Type} {l1 l2 : List α} (h : l1.head? = l2.head?) (h1 : l1 = []) :
    l2 = [] := by
  subst h1
  cases l2 with
  | nil => rfl
  | cons x t => simp at h

theorem head_eq_cons {α : Type} {l1 l2 : List α} {x : α} {t1 : List α}
    (h : l1.head? = l2.head?) (h1 : l1 = x :: t1) : ∃ t2, l2 = x :: t2 := by
  subst h1
  cases l2 with
  | nil => simp at h
  | cons y t2 =>
    simp only [List.head?_cons, Option.some.injEq] at h
    exact ⟨t2, by rw [h]⟩

theorem ls_op_agree (mk : Str) (r1 r2 : Resolver) (B : Backend) (path : Str) (detail : Bool)
    (h : ctx_agree r1 r2) : ls_op mk r1 B path detail = ls_op mk r2 B path detail := by
  obtain ⟨hev, hres⟩ := op_prelude_agree mk r1 r2 path .LIST_STATUS h
  unfold ls_op
  dsimp only
  rcases hres with ⟨e, h1, h2⟩ | ⟨c1, f1, c2, f2, a, st, h1, h2, hloc, hfh⟩
  · rw [h1, h2, hev]
  · rw [h1, h2]
    dsimp only
    cases pre_process_path path with
    | error e => rw [hev]
    | ok pp =>
      dsimp only
      cases extract_identifier mk (some pp) with
      | error e => rw [hev]
      | ok ident =>
        dsimp only
        cases hf1 : f1 with
        | nil => rw [head_eq_nil hfh hf1, hev]
        | cons f t1 =>
          obtain ⟨t2, hf2⟩ := head_eq_cons hfh hf1
          rw [hf2, hloc, hev]

theorem info_op_agree (mk : Str) (r1 r2 : Resolver) (B : Backend) (path : Str)
    (h : ctx_agree r1 r2) : info_op mk r1 B path = info_op mk r2 B path := by
  obtain ⟨hev, hres⟩ := op_prelude_agree mk r1 r2 path .GET_FILE_STATUS h
  unfold info_op
  dsimp only
  rcases hres with ⟨e, h1, h2⟩ | ⟨c1, f1, c2, f2, a, st, h1, h2, hloc, hfh⟩
  · rw [h1, h2, hev]
  · rw [h1, h2]
    dsimp only
    cases pre_process_path path with
    | error e => rw [hev]
    | ok pp =>
      dsimp only
      cases extract_identifier mk (some pp) with
      | error e => rw [hev]
      | ok ident =>
        dsimp only
        cases hf1 : f1 with
        | nil => rw [head_eq_nil hfh hf1, hev]
        | cons f t1 =>
          obtain ⟨t2, hf2⟩ := head_eq_cons hfh hf1
          rw [hf2, hloc, hev]

theorem created_op_agree (mk : Str) (r1 r2 : Resolver) (B : Backend) (path : Str)
    (h : ctx_agree r1 r2) : created_op mk r1 B path = created_op mk r2 B path := by
  obtain ⟨hev, hres⟩ := op_prelude_agree mk r1 r2 path .CREATED_TIME h
  unfold created_op
  dsimp only
  rcases hres with ⟨e, h1, h2⟩ | ⟨c1, f1, c2, f2, a, st, h1, h2, hloc, hfh⟩
  · rw [h1, h2, hev]
  · rw [h1, h2]
    dsimp only
    cases st with
    | LOCAL =>
      cases hf1 : f1 with
      | nil => rw [head_eq_nil hfh hf1, hev]
      | cons f t1 =>
        obtain ⟨t2, hf2⟩ := head_eq_cons hfh hf1
        rw [hf2, hev]
    | HDFS => rw [hev]
    | LAVAFS => rw [hev]

theorem cp_file_op_agree (mk : Str) (r1 r2 : Resolver) (p1 p2 : Str)
    (h : ctx_agree r1 r2) : cp_file_op mk r1 p1 p2 = cp_file_op mk r2 p1 p2 := by
  unfold cp_file_op
  cases pre_process_path p1 with
  | error e => rfl
  | ok src_path =>
    dsimp only
    cases pre_process_path p2 with
    | error e => rfl
    | ok dst_path =>
      dsimp only
      cases extract_identifier mk (some src_path) with
      | error e => rfl
      | ok si =>
        dsimp only
        cases extract_identifier mk (some dst_path) with
        | error e => rfl
        | ok di =>
          dsimp only
          by_cases hne : si ≠ di
          · rw [if_pos hne, if_pos hne]
          · rw [if_neg hne, if_neg hne]
            obtain ⟨hev, hres⟩ := op_prelude_agree mk r1 r2 src_path .COPY_FILE h
            rcases hres with ⟨e, h1, h2⟩ | ⟨c1, f1, c2, f2, a, st, h1, h2, hloc, hfh⟩
            · rw [h1, h2, hev]
            · rw [h1, h2]
              dsimp only
              obtain ⟨hev2, hres2⟩ := gfc_agree mk r1 r2 dst_path .COPY_FILE h
              rcases hres2 with ⟨e, g1, g2⟩ | ⟨d1, o1, d2, o2, g1, g2, dloc, dhead, ohead⟩
              · rw [g1, g2, hev, hev2]
              · rw [g1, g2]
                dsimp only
                cases hap1 : d1.actual_paths with
                | nil => rw [head_eq_nil dhead hap1, hev, hev2]
                | cons da t1 =>
                  obtain ⟨t2, hap2⟩ := head_eq_cons dhead hap1
                  rw [hap2]
                  dsimp only
                  cases hsf : f1 with
                  | nil => rw [head_eq_nil hfh hsf, hev, hev2]
                  | cons f ft1 =>
                    obtain ⟨ft2, hf2⟩ := head_eq_cons hfh hsf
                    rw [hf2, hev, hev2]

theorem mv_op_agree (mk : Str) (r1 r2 : Resolver) (p1 p2 : Str)
    (recursive : Bool) (maxdepth : Option Nat)
    (h : ctx_agree r1 r2) :
    mv_op mk r1 p1 p2 recursive maxdepth = mv_op mk r2 p1 p2 recursive maxdepth := by
  unfold mv_op
  cases pre_process_path p1 with
  | error e => rfl
  | ok src_path =>
    dsimp only
    cases pre_process_path p2 with
    | error e => rfl
    | ok dst_path =>
      dsimp only
      cases extract_identifier mk (some src_path) with
      | error e => rfl
      | ok si =>
        dsimp only
        cases extract_identifier mk (some dst_path) with
        | error e => rfl
        | ok di =>
          dsimp only
          by_cases hne : si ≠ di
          · rw [if_pos hne, if_pos hne]
          · rw [if_neg hne, if_neg hne]
            obtain ⟨hev, hres⟩ := op_prelude_agree mk r1 r2 src_path .RENAME h
            rcases hres with ⟨e, h1, h2⟩ | ⟨c1, f1, c2, f2, a, st, h1, h2, hloc, hfh⟩
            · rw [h1, h2, hev]
            · rw [h1, h2]
              dsimp only
              obtain ⟨hev2, hres2⟩ := gfc_agree mk r1 r2 dst_path .RENAME h
              rcases hres2 with ⟨e, g1, g2⟩ | ⟨d1, o1, d2, o2, g1, g2, dloc, dhead, ohead⟩
              · rw [g1, g2, hev, hev2]
              · rw [g1, g2]
                dsimp only
                cases hap1 : d1.actual_paths with
                | nil => rw [head_eq_nil dhead hap1, hev, hev2]
                | cons da t1 =>
                  obtain ⟨t2, hap2⟩ := head_eq_cons dhead hap1
                  rw [hap2]
                  dsimp only
                  cases hsf : f1 with
                  | nil => rw [head_eq_nil hfh hsf, hev, hev2]
                  | cons f ft1 =>
                    obtain ⟨ft2, hf2⟩ := head_eq_cons hfh hsf
                    rw [hf2, hev, hev2]

theorem get_file_op_agree (mk : Str) (r1 r2 : Resolver) (rpath lpath : Str)
    (h : ctx_agree r1 r2) : get_file_op mk r1 rpath lpath = get_file_op mk r2 rpath lpath := by
  unfold get_file_op
  cases hguard : (!(StorageType.LOCAL.value ++ ":".toList).isPrefixOf lpath &&
      !("/".toList).isPrefixOf lpath) with
  | true => rfl
  | false =>
    simp only [if_neg (by simp : ¬(false = true))]
    exact delegate_simple_agree mk r1 r2 rpath .GET_FILE _ _ h

-- ===== claims =====

/-- C2: identifier extraction succeeds exactly on the paths of the form
fileset/{catalog}/{schema}/{fileset} built from three non-empty slash-free
segments followed by an optional sub-path tail (slash-led non-empty
segments, optionally ending in one slash), returning the identifier built
from the configured metalake and the three segments; a missing path and
every other path fail with the invalid-path errors of the source. -/
theorem c2_extract_identifier_grammar (mk : Str) :
    extract_identifier mk none = .error .nullPath ∧
    (∀ a b c subs tr, seg_ok a → seg_ok b → seg_ok c → (∀ x ∈ subs, seg_ok x) →
      extract_identifier mk (some (grammar_path a b c subs tr)) = .ok ⟨mk, a, b, c⟩) ∧
    (∀ p, (¬ ∃ a b c subs tr, seg_ok a ∧ seg_ok b ∧ seg_ok c ∧
        (∀ x ∈ subs, seg_ok x) ∧ p = grammar_path a b c subs tr) →
      extract_identifier mk (some p) = .error (.noIdentifier p)) := by
  refine ⟨rfl, ?_, ?_⟩
  · intro a b c subs tr ha hb hc hsubs
    unfold extract_identifier
    dsimp only
    rw [extract_groups_complete a b c subs tr ha hb hc hsubs]
  · intro p hno
    unfold extract_identifier
    dsimp only
    cases hg : extract_groups p with
    | none => rfl
    | some t =>
      obtain ⟨a, bc⟩ := t
      obtain ⟨b, c⟩ := bc
      obtain ⟨ha, hb, hc, subs, tr, hsubs, heq⟩ := extract_groups_sound p a b c hg
      exact absurd ⟨a, b, c, subs, tr, ha, hb, hc, hsubs, heq⟩ hno

/-- Witness for C2 at a concrete grammar path with one sub-path segment. -/
theorem c2_witness :
    extract_identifier ("m".toList)
        (some (grammar_path ("a".toList) ("b".toList) ("c".toList) [("d".toList)] false))
      = .ok ⟨"m".toList, "a".toList, "b".toList, "c".toList⟩ :=
  (c2_extract_identifier_grammar ("m".toList)).2.1 ("a".toList) ("b".toList) ("c".toList)
    [("d".toList)] false (by decide) (by decide) (by decide) (by decide)

/-- C8: path normalization strips one optional gvfs scheme marker; when the
stripped result starts with the fileset marker it is returned unchanged,
otherwise the call fails with the invalid-path error carrying that
result. -/
theorem c8_pre_process (p : Str) :
    (("fileset/".toList).isPrefixOf
        (if ("gvfs://".toList).isPrefixOf p then p.drop ("gvfs://".toList).length else p) = true →
      pre_process_path p =
        .ok (if ("gvfs://".toList).isPrefixOf p then p.drop ("gvfs://".toList).length else p)) ∧
    (("fileset/".toList).isPrefixOf
        (if ("gvfs://".toList).isPrefixOf p then p.drop ("gvfs://".toList).length else p) = false →
      pre_process_path p =
        .error (.invalidPath
          (if ("gvfs://".toList).isPrefixOf p then p.drop ("gvfs://".toList).length else p))) := by
  constructor
  · intro h
    unfold pre_process_path
    dsimp only
    rw [if_pos h]
  · intro h
    unfold pre_process_path
    dsimp only
    rw [if_neg (by
      intro hc
      rw [hc] at h
      exact Bool.noConfusion h)]

/-- Witness for C8: a prefixed path that normalizes, and one that fails. -/
theorem c8_witness :
    pre_process_path ("gvfs://fileset/a/b/c".toList) = .ok ("fileset/a/b/c".toList) ∧
    pre_process_path ("gvfs://x".toList) = .error (.invalidPath ("x".toList)) :=
  ⟨(c8_pre_process ("gvfs://fileset/a/b/c".toList)).1 (by decide),
   (c8_pre_process ("gvfs://x".toList)).2 (by decide)⟩

/-- C5: cache construction fails when the configured capacity is not
positive or the expiry is exactly zero, before any cache is built;
otherwise a negative expiry selects the plain LRU cache and a positive
expiry the TTL cache, both carrying the configured capacity. -/
theorem c5_cache_construction (cache_size cache_expired_time : Int) :
    ((cache_size ≤ 0 ∨ cache_expired_time = 0) →
      except_ok (init_cache cache_size cache_expired_time) = false) ∧
    (cache_size > 0 → cache_expired_time < 0 →
      init_cache cache_size cache_expired_time = .ok (.lruCache cache_size)) ∧
    (cache_size > 0 → cache_expired_time > 0 →
      init_cache cache_size cache_expired_time = .ok (.ttlCache cache_size cache_expired_time)) := by
  refine ⟨?_, ?_, ?_⟩ <;> unfold init_cache
  · rintro (hs | ht)
    · by_cases ht : cache_expired_time = 0
      · rw [if_pos ht]
        rfl
      · rw [if_neg ht, if_pos (by omega : ¬ cache_size > 0)]
        rfl
    · rw [if_pos ht]
      rfl
  · intro hs ht
    rw [if_neg (by omega), if_neg (not_not_intro hs), if_pos ht]
  · intro hs ht
    rw [if_neg (by omega), if_neg (not_not_intro hs), if_neg (by omega)]

/-- Witness for C5: a zero capacity fails, a negative expiry builds the LRU
cache, a positive expiry builds the TTL cache. -/
theorem c5_witness :
    except_ok (init_cache 0 5) = false ∧
    init_cache 10 (-1) = .ok (.lruCache 10) ∧
    init_cache 10 7 = .ok (.ttlCache 10 7) :=
  ⟨(c5_cache_construction 0 5).1 (Or.inl (by decide)),
   (c5_cache_construction 10 (-1)).2.1 (by decide) (by decide),
   (c5_cache_construction 10 7).2.2 (by decide) (by decide)⟩

/-- C7: with the token authentication mode configured, construction fails
when the token value is missing or empty, and succeeds with the
token-authenticated client for every non-empty token. -/
theorem c7_token_auth (o : Options) (ho : o.auth_type = some TOKEN_AUTH_TYPE) :
    ((o.token_value = none ∨ o.token_value = some []) →
      except_ok (init_auth (some o)) = false) ∧
    (∀ tv, o.token_value = some tv → tv ≠ [] →
      init_auth (some o) = .ok (.tokenAuth tv)) := by
  have hne : ¬ TOKEN_AUTH_TYPE = DEFAULT_AUTH_TYPE := by decide
  constructor
  · rintro (h | h) <;> simp [init_auth, ho, hne, h, except_ok]
  · intro tv htv hnil
    simp [init_auth, ho, hne, htv, hnil]

/-- Witness for C7: a non-empty token succeeds, a missing token fails. -/
theorem c7_witness :
    init_auth (some ⟨some ("token".toList), some ("abc".toList)⟩)
      = .ok (.tokenAuth ("abc".toList)) ∧
    except_ok (init_auth (some ⟨some ("token".toList), none⟩)) = false :=
  ⟨(c7_token_auth ⟨some ("token".toList), some ("abc".toList)⟩ (by decide)).2
      ("abc".toList) rfl (by decide),
   (c7_token_auth ⟨some ("token".toList), none⟩ (by decide)).1 (Or.inl rfl)⟩

/-- C3 counterexample: with the local storage type, storage location
file:/a (actual prefix /a) and actual path /a/a, which starts with the
prefix, conversion succeeds but the Python replace substitutes both
occurrences of the prefix, so the result is not the virtual location
followed by the unchanged remainder /a. -/
theorem c3_claim_counterexample :
    convert_actual_path ("/a/a".toList) ("file:/a".toList) .LOCAL
        ⟨"m".toList, "c".toList, "s".toList, "f".toList⟩
      = .ok ("fileset/c/s/ffileset/c/s/f".toList) ∧
    ("fileset/c/s/ffileset/c/s/f".toList : Str) ≠
      virtual_location ⟨"m".toList, "c".toList, "s".toList, "f".toList⟩ ++ ("/a".toList) := by
  decide

/-- C3 amended: conversion fails, with the prefix-mismatch error, exactly
when the actual path does not start with the actual prefix; on success the
result is the virtual location followed by the unchanged remainder provided
the prefix is non-empty and does not occur again in the remainder (the
source substitutes every occurrence of the prefix, not only the leading
one). -/
theorem c3_convert_amended (actualPre path mk a b c : Str) :
    ((∃ e, convert_core actualPre (virtual_location ⟨mk, a, b, c⟩) path = .error e) ↔
      actualPre.isPrefixOf path = false) ∧
    (∀ rem, path = actualPre ++ rem → actualPre ≠ [] → ¬ actualPre <:+: rem →
      convert_core actualPre (virtual_location ⟨mk, a, b, c⟩) path =
        .ok (virtual_location ⟨mk, a, b, c⟩ ++ rem)) := by
  constructor
  · constructor
    · rintro ⟨e, he⟩
      unfold convert_core at he
      by_cases hp : actualPre.isPrefixOf path
      · rw [if_pos hp] at he
        exact Except.noConfusion he
      · exact Bool.eq_false_iff.mpr hp
    · intro h
      refine ⟨.prefixMismatch path actualPre, ?_⟩
      unfold convert_core
      rw [if_neg (by
        intro hc
        rw [hc] at h
        exact Bool.noConfusion h)]
  · intro rem hrem hne hocc
    subst hrem
    unfold convert_core
    rw [if_pos (ipo_append actualPre rem)]
    rw [py_replace_append _ _ _ hne, py_replace_no_occ _ _ _ hocc]

/-- Witness for C3 amended at a concrete prefix and remainder. -/
theorem c3_witness :
    convert_core ("/data/fs".toList)
        (virtual_location ⟨"m".toList, "a".toList, "b".toList, "c".toList⟩)
        (("/data/fs".toList) ++ ("/x".toList))
      = .ok (virtual_location ⟨"m".toList, "a".toList, "b".toList, "c".toList⟩ ++ ("/x".toList)) :=
  (c3_convert_amended ("/data/fs".toList) (("/data/fs".toList) ++ ("/x".toList))
      ("m".toList) ("a".toList) ("b".toList) ("c".toList)).2
    ("/x".toList) rfl (by decide) (by decide)

/-- C4 counterexample: with the local storage type, storage location
file:/data/fs (actual prefix /data/fs) and actual path /data/fsX, which
begins with the prefix, conversion succeeds and extraction succeeds, but the
extracted identifier has fileset component fX instead of f: the round-trip
does not preserve the identifier. -/
theorem c4_roundtrip_counterexample :
    convert_actual_path ("/data/fsX".toList) ("file:/data/fs".toList) .LOCAL
        ⟨"m".toList, "c".toList, "s".toList, "f".toList⟩
      = .ok ("fileset/c/s/fX".toList) ∧
    extract_identifier ("m".toList) (some ("fileset/c/s/fX".toList))
      = .ok ⟨"m".toList, "c".toList, "s".toList, "fX".toList⟩ ∧
    (⟨"m".toList, "c".toList, "s".toList, "fX".toList⟩ : NameIdentifier) ≠
      ⟨"m".toList, "c".toList, "s".toList, "f".toList⟩ := by
  decide

/-- C4 amended: for every recognized storage type, the round-trip preserves
the identifier provided the actual prefix derived from the storage location
is non-empty, the remainder after the prefix is a well-formed sub-path tail
(slash-led non-empty segments with an optional trailing slash, possibly
empty), the prefix does not occur again in the remainder, and the
identifier's catalog, schema and fileset components are non-empty and
slash-free. -/
theorem c4_roundtrip_amended (st : StorageType) (loc mk a b c : Str)
    (subs : List Str) (tr : Bool)
    (hne : actual_pre_of st loc ≠ [])
    (ha : seg_ok a) (hb : seg_ok b) (hc : seg_ok c) (hsubs : ∀ x ∈ subs, seg_ok x)
    (hocc : ¬ actual_pre_of st loc <:+: tail_str subs tr) :
    convert_actual_path (actual_pre_of st loc ++ tail_str subs tr) loc st ⟨mk, a, b, c⟩
      = .ok (virtual_location ⟨mk, a, b, c⟩ ++ tail_str subs tr) ∧
    extract_identifier mk (some (virtual_location ⟨mk, a, b, c⟩ ++ tail_str subs tr))
      = .ok ⟨mk, a, b, c⟩ := by
  constructor
  · unfold convert_actual_path convert_core
    rw [if_pos (ipo_append _ _)]
    rw [py_replace_append _ _ _ hne, py_replace_no_occ _ _ _ hocc]
  · have hvg : virtual_location ⟨mk, a, b, c⟩ ++ tail_str subs tr
        = grammar_path a b c subs tr := by
      simp [virtual_location, grammar_path]
    rw [hvg]
    unfold extract_identifier
    dsimp only
    rw [extract_groups_complete a b c subs tr ha hb hc hsubs]

/-- Witness for C4 amended: a local fileset with one sub-path segment
round-trips its identifier. -/
theorem c4_witness :
    convert_actual_path
        (actual_pre_of .LOCAL ("file:/data/fs".toList) ++ tail_str [("x".toList)] false)
        ("file:/data/fs".toList) .LOCAL
        ⟨"m".toList, "a".toList, "b".toList, "c".toList⟩
      = .ok (virtual_location ⟨"m".toList, "a".toList, "b".toList, "c".toList⟩ ++
          tail_str [("x".toList)] false) ∧
    extract_identifier ("m".toList)
        (some (virtual_location ⟨"m".toList, "a".toList, "b".toList, "c".toList⟩ ++
          tail_str [("x".toList)] false))
      = .ok ⟨"m".toList, "a".toList, "b".toList, "c".toList⟩ :=
  c4_roundtrip_amended .LOCAL ("file:/data/fs".toList) ("m".toList)
    ("a".toList) ("b".toList) ("c".toList) [("x".toList)] false
    (by decide) (by decide) (by decide) (by decide) (by decide) (by decide)

/-- C1: when the identifiers extracted from the two pre-processed virtual
paths differ, copy and move fail with the cross-fileset error and an empty
trace, so before any catalog load, context resolution or backend call; when
the identifiers are equal, neither operation can report that error. -/
theorem c1_cross_guard (mk : Str) (r : Resolver) (p1 p2 q1 q2 : Str)
    (i1 i2 : NameIdentifier)
    (hq1 : pre_process_path p1 = .ok q1) (hq2 : pre_process_path p2 = .ok q2)
    (hi1 : extract_identifier mk (some q1) = .ok i1)
    (hi2 : extract_identifier mk (some q2) = .ok i2) :
    (i1 ≠ i2 →
      cp_file_op mk r p1 p2 = ([], .error (.crossFileset i1 i2)) ∧
      ∀ recursive maxdepth,
        mv_op mk r p1 p2 recursive maxdepth = ([], .error (.crossFileset i1 i2))) ∧
    (i1 = i2 →
      no_cross (cp_file_op mk r p1 p2).2 ∧
      ∀ recursive maxdepth, no_cross (mv_op mk r p1 p2 recursive maxdepth).2) := by
  constructor
  · intro hne
    constructor
    · unfold cp_file_op
      rw [hq1]
      dsimp only
      rw [hq2]
      dsimp only
      rw [hi1]
      dsimp only
      rw [hi2]
      dsimp only
      rw [if_pos hne]
    · intro recursive maxdepth
      unfold mv_op
      rw [hq1]
      dsimp only
      rw [hq2]
      dsimp only
      rw [hi1]
      dsimp only
      rw [hi2]
      dsimp only
      rw [if_pos hne]
  · intro heq
    constructor
    · unfold cp_file_op
      rw [hq1]
      dsimp only
      rw [hq2]
      dsimp only
      rw [hi1]
      dsimp only
      rw [hi2]
      dsimp only
      rw [if_neg (not_not_intro heq)]
      cases hrs : (op_prelude mk r q1 .COPY_FILE).2 with
      | error e =>
        dsimp only
        intro i j hc
        injection hc with h2
        exact resolution_err_not_cross e (op_prelude_error_shape mk r q1 .COPY_FILE e hrs) i j h2
      | ok v =>
        obtain ⟨c1, v2⟩ := v
        obtain ⟨fss, v3⟩ := v2
        obtain ⟨a, st⟩ := v3
        dsimp only
        cases hrd : (get_fileset_context mk r q2 .COPY_FILE).2 with
        | error e =>
          dsimp only
          intro i j hc
          injection hc with h2
          exact resolution_err_not_cross e (gfc_error_shape mk r q2 .COPY_FILE e hrd) i j h2
        | ok w =>
          obtain ⟨dctx, dfss⟩ := w
          dsimp only
          cases dctx.actual_paths with
          | nil =>
            intro i j hc
            injection hc with h2
            exact GvfsError.noConfusion h2
          | cons da t =>
            cases fss with
            | nil =>
              intro i j hc
              injection hc with h2
              exact GvfsError.noConfusion h2
            | cons f ft =>
              intro i j hc
              exact Except.noConfusion hc
    · intro recursive maxdepth
      unfold mv_op
      rw [hq1]
      dsimp only
      rw [hq2]
      dsimp only
      rw [hi1]
      dsimp only
      rw [hi2]
      dsimp only
      rw [if_neg (not_not_intro heq)]
      cases hrs : (op_prelude mk r q1 .RENAME).2 with
      | error e =>
        dsimp only
        intro i j hc
        injection hc with h2
        exact resolution_err_not_cross e (op_prelude_error_shape mk r q1 .RENAME e hrs) i j h2
      | ok v =>
        obtain ⟨c1, v2⟩ := v
        obtain ⟨fss, v3⟩ := v2
        obtain ⟨a, st⟩ := v3
        dsimp only
        cases hrd : (get_fileset_context mk r q2 .RENAME).2 with
        | error e =>
          dsimp only
          intro i j hc
          injection hc with h2
          exact resolution_err_not_cross e (gfc_error_shape mk r q2 .RENAME e hrd) i j h2
        | ok w =>
          obtain ⟨dctx, dfss⟩ := w
          dsimp only
          cases dctx.actual_paths with
          | nil =>
            intro i j hc
            injection hc with h2
            exact GvfsError.noConfusion h2
          | cons da t =>
            cases fss with
            | nil =>
              intro i j hc
              injection hc with h2
              exact GvfsError.noConfusion h2
            | cons f ft =>
              cases st <;>
                · intro i j hc
                  exact Except.noConfusion hc

/-- Witness for C1: two virtual paths of the same catalog and schema but
different filesets fail the copy guard with an empty trace. -/
theorem c1_witness :
    cp_file_op ("m".toList) (fun _ _ _ => ⟨[], []⟩)
        ("fileset/a/b/c/x".toList) ("fileset/a/b/d/y".toList)
      = ([], .error (.crossFileset ⟨"m".toList, "a".toList, "b".toList, "c".toList⟩
                                   ⟨"m".toList, "a".toList, "b".toList, "d".toList⟩)) :=
  ((c1_cross_guard ("m".toList) (fun _ _ _ => ⟨[], []⟩)
      ("fileset/a/b/c/x".toList) ("fileset/a/b/d/y".toList)
      ("fileset/a/b/c/x".toList) ("fileset/a/b/d/y".toList)
      ⟨"m".toList, "a".toList, "b".toList, "c".toList⟩
      ⟨"m".toList, "a".toList, "b".toList, "d".toList⟩
      (by decide) (by decide) (by decide) (by decide)).1 (by decide)).1

/-- C10: copy-to-local fails with the non-local-destination error and an
empty trace, so before any context resolution or backend call, whenever the
local destination starts with neither the literal file scheme prefix nor a
slash; with either prefix that error can never be reported. -/
theorem c10_get_file_guard (mk : Str) (r : Resolver) (rpath lpath : Str) :
    ((("file:".toList).isPrefixOf lpath = false ∧ ("/".toList).isPrefixOf lpath = false) →
      get_file_op mk r rpath lpath = ([], .error .remoteDestination)) ∧
    ((("file:".toList).isPrefixOf lpath = true ∨ ("/".toList).isPrefixOf lpath = true) →
      not_remote (get_file_op mk r rpath lpath).2) := by
  have hval : StorageType.LOCAL.value ++ ":".toList = ("file:".toList) := rfl
  constructor
  · rintro ⟨h1, h2⟩
    unfold get_file_op
    rw [hval, h1, h2]
    rfl
  · intro hor
    have hcond : (!("file:".toList).isPrefixOf lpath && !("/".toList).isPrefixOf lpath) = false := by
      rcases hor with h | h
      · rw [h]
        rfl
      · rw [h]
        simp
    unfold get_file_op
    rw [hval, hcond]
    rw [if_neg (by simp)]
    unfold delegate_simple
    dsimp only
    cases hrs : (op_prelude mk r rpath .GET_FILE).2 with
    | error e =>
      dsimp only
      intro hc
      injection hc with h2
      exact resolution_err_not_remote e (op_prelude_error_shape mk r rpath .GET_FILE e hrs) h2
    | ok v =>
      obtain ⟨c1, v2⟩ := v
      obtain ⟨fss, v3⟩ := v2
      obtain ⟨a, st⟩ := v3
      dsimp only
      cases fss with
      | nil =>
        intro hc
        injection hc with h2
        exact GvfsError.noConfusion h2
      | cons f ft =>
        intro hc
        exact Except.noConfusion hc

/-- Witness for C10: a remote-looking destination fails the guard, a
rooted local destination passes it. -/
theorem c10_witness :
    get_file_op ("m".toList) (fun _ _ _ => ⟨[], []⟩)
        ("fileset/a/b/c/x".toList) ("s3://y".toList)
      = ([], .error .remoteDestination) ∧
    not_remote (get_file_op ("m".toList) (fun _ _ _ => ⟨[], []⟩)
        ("fileset/a/b/c/x".toList) ("/tmp/y".toList)).2 :=
  ⟨(c10_get_file_guard ("m".toList) (fun _ _ _ => ⟨[], []⟩)
      ("fileset/a/b/c/x".toList) ("s3://y".toList)).1 ⟨by decide, by decide⟩,
   (c10_get_file_guard ("m".toList) (fun _ _ _ => ⟨[], []⟩)
      ("fileset/a/b/c/x".toList) ("/tmp/y".toList)).2 (Or.inr (by decide))⟩

/-- C9 counterexample: two resolved contexts with the same first actual
path but different tails make the exists operation behave differently,
because a backend handle is opened for every actual path and the extra
path's scheme is unrecognized; the remaining actual paths therefore do
influence the result. -/
theorem c9_first_path_counterexample :
    (∀ i sp o, (R_single i sp o).actual_paths.head?
        = (R_extra_bad i sp o).actual_paths.head?) ∧
    exists_op ("m".toList) R_single B0 ("fileset/a/b/c".toList) ≠
      exists_op ("m".toList) R_extra_bad B0 ("fileset/a/b/c".toList) :=
  ⟨fun _ _ _ => rfl, by decide⟩

/-- C9 amended: every public operation delegates its backend call using
only the first actual path of the resolved context; the remaining actual
paths influence the outcome only through the backend-handle acquisition
performed for each of them.  When two resolvers agree on storage location
and first actual path and every actual path of both yields a handle, all
fifteen public operations produce identical traces and results. -/
theorem c9_first_path_amended (mk : Str) (B : Backend) (r1 r2 : Resolver)
    (h : ctx_agree r1 r2) :
    (∀ path detail, ls_op mk r1 B path detail = ls_op mk r2 B path detail) ∧
    (∀ path, info_op mk r1 B path = info_op mk r2 B path) ∧
    (∀ path, exists_op mk r1 B path = exists_op mk r2 B path) ∧
    (∀ p1 p2, cp_file_op mk r1 p1 p2 = cp_file_op mk r2 p1 p2) ∧
    (∀ p1 p2 recursive maxdepth,
      mv_op mk r1 p1 p2 recursive maxdepth = mv_op mk r2 p1 p2 recursive maxdepth) ∧
    (∀ path recursive maxdepth,
      rm_op mk r1 path recursive maxdepth = rm_op mk r2 path recursive maxdepth) ∧
    (∀ path, rm_file_op mk r1 path = rm_file_op mk r2 path) ∧
    (∀ path, rmdir_op mk r1 path = rmdir_op mk r2 path) ∧
    (∀ path mode, open_op mk r1 B path mode = open_op mk r2 B path mode) ∧
    (∀ path create_parents,
      mkdir_op mk r1 path create_parents = mkdir_op mk r2 path create_parents) ∧
    (∀ path exist_ok,
      makedirs_op mk r1 path exist_ok = makedirs_op mk r2 path exist_ok) ∧
    (∀ path, created_op mk r1 B path = created_op mk r2 B path) ∧
    (∀ path, modified_op mk r1 B path = modified_op mk r2 B path) ∧
    (∀ path start finish,
      cat_file_op mk r1 B path start finish = cat_file_op mk r2 B path start finish) ∧
    (∀ rpath lpath, get_file_op mk r1 rpath lpath = get_file_op mk r2 rpath lpath) := by
  refine ⟨fun path detail => ls_op_agree mk r1 r2 B path detail h,
          fun path => info_op_agree mk r1 r2 B path h,
          fun path => ?_,
          fun p1 p2 => cp_file_op_agree mk r1 r2 p1 p2 h,
          fun p1 p2 recursive maxdepth => mv_op_agree mk r1 r2 p1 p2 recursive maxdepth h,
          fun path recursive maxdepth => ?_,
          fun path => ?_,
          fun path => ?_,
          fun path mode => ?_,
          fun path create_parents => ?_,
          fun path exist_ok => ?_,
          fun path => created_op_agree mk r1 r2 B path h,
          fun path => ?_,
          fun path start finish => ?_,
          fun rpath lpath => get_file_op_agree mk r1 r2 rpath lpath h⟩
  · exact delegate_simple_agree mk r1 r2 path .EXISTS _ _ h
  · exact delegate_simple_agree mk r1 r2 path .DELETE _ _ h
  · exact delegate_simple_agree mk r1 r2 path .DELETE _ _ h
  · exact delegate_simple_agree mk r1 r2 path .DELETE _ _ h
  · exact delegate_simple_agree mk r1 r2 path (open_operation mode) _ _ h
  · exact delegate_simple_agree mk r1 r2 path .MKDIRS _ _ h
  · exact delegate_simple_agree mk r1 r2 path .MKDIRS _ _ h
  · exact delegate_simple_agree mk r1 r2 path .MODIFIED_TIME _ _ h
  · exact delegate_simple_agree mk r1 r2 path .CAT_FILE _ _ h

/-- Witness for C9 amended: a resolver with one local actual path and one
with an extra recognizable actual path agree on the exists operation. -/
theorem c9_witness :
    exists_op ("m".toList) R_single B0 ("fileset/a/b/c".toList)
      = exists_op ("m".toList) R_extra_ok B0 ("fileset/a/b/c".toList) := by
  have h1 : ∀ p ∈ [("file:/a".toList)], except_ok (get_filesystem p) = true := by decide
  have h2 : ∀ p ∈ [("file:/a".toList), ("file:/b".toList)],
      except_ok (get_filesystem p) = true := by decide
  exact (c9_first_path_amended ("m".toList) B0 R_single R_extra_ok
    (fun _ _ _ => ⟨rfl, rfl, h1, h2⟩)).2.2.1 ("fileset/a/b/c".toList)
